import Mathlib

/-!
# amr-wind: boundary dispatch and finite-volume operators

A shallow embedding of

* `amr-wind/core/FieldBCOps.H` (`FieldBCNoOp`, `ConstDirichlet`, `DirichletOp`,
  `FieldBCDirichlet`),
* `amr-wind/fvm/gradient.H` (`Gradient::apply`),
* `amr-wind/fvm/laplacian.H` (`Laplacian::apply`),
* `amr-wind/equation_systems/icns/source_terms/ABLForcing.H`
  (`ABLForcing::set_target_velocities`, `ABLForcing::set_mean_velocities`),

followed by the properties proved about them.

Conventions of the embedding.

* `amrex::Real` is an arbitrary type `R`; the kernels only need `+` and `*` on it.
  Statements that rearrange arithmetic (for instance `x * a * a = x * a ^ 2`) are made
  over a commutative ring or a field, that is, in exact arithmetic.
* C++ `int` is `Int`; no index computation of the embedded code is near the range limit.
* Raw pointers and `Array4` accessors carry no length, so they are total functions of
  their index.
* Mutation is explicit state passing: a boundary policy is a state transformer.
-/

namespace AmrWind

/-! ## AMReX index-space types used by the sources -/

/-- The three-dimensional integer index `amrex::IntVect` (`AMREX_SPACEDIM = 3`). -/
abbrev IntVect := Fin 3 → Int

/-- The index box `amrex::Box`: inclusive low and high corners. -/
structure Box where
  smallEnd : IntVect
  bigEnd : IntVect

/-- The test `Box::isEmpty()`: some axis has its high end below its low end. -/
def Box.isEmpty (b : Box) : Bool :=
  decide (∃ d : Fin 3, b.bigEnd d < b.smallEnd d)

/-- The face tag `amrex::Orientation`: the stored value is `side * 3 + dir`, so the
values `0, 1, 2` are the low faces of x, y, z and `3, 4, 5` the high faces. -/
abbrev Orientation := Fin 6

/-- The axis `Orientation::coordDir()`, the stored value modulo the dimension. -/
def Orientation.coordDir (ori : Orientation) : Fin 3 :=
  ⟨ori.val % 3, Nat.mod_lt _ (by decide)⟩

/-- The side test `Orientation::isLow()`, the stored value below the dimension. -/
def Orientation.isLow (ori : Orientation) : Bool :=
  decide (ori.val < 3)

/-- The enumeration of `amrex::OrientationIter`: it starts at value `0` and is
incremented up to `5`, that is x-low, y-low, z-low, x-high, y-high, z-high. -/
def OrientationIter : List Orientation := [0, 1, 2, 3, 4, 5]

/-- The integer constant `amrex::BCType::ext_dir`. -/
def BCType.ext_dir : Int := 3

/-- The integer constant `amrex::BCType::int_dir`. -/
def BCType.int_dir : Int := 0

/-- The integer constant `amrex::BCType::foextrap`. -/
def BCType.foextrap : Int := 2

/-- The record `amrex::BCRec`: one mathematical boundary type per face. -/
structure BCRec where
  lo : Fin 3 → Int
  hi : Fin 3 → Int

/-- The accessor `amrex::Array4<Real>`, a total map from `(i, j, k, n)` to a value. -/
abbrev Array4 (R : Type) := Int → Int → Int → Int → R

/-- The assignment `a(i, j, k, n) = v`. -/
def Array4.set {R : Type} (a : Array4 R) (i j k n : Int) (v : R) : Array4 R :=
  fun i' j' k' n' => if i' = i ∧ j' = j ∧ k' = k ∧ n' = n then v else a i' j' k' n'

/-- The part of `amrex::GeometryData` the boundary operators can see. -/
structure GeometryData (R : Type) where
  domain : Box
  prob_lo : Fin 3 → R
  dx : Fin 3 → R

/-- The accessor `GeometryData::Domain()`. -/
def GeometryData.Domain {R : Type} (geom : GeometryData R) : Box := geom.domain

/-! ## Field metadata -/

/-- Modelled from the spec: the enumeration `BC` of `amr-wind/core/FieldDescTypes.H`,
which is not among the sources. The spec names the categories mass inflow, wall,
no-op/periodic and symmetric; any other stored value is `unrecognised`. -/
inductive BC where
  | mass_inflow
  | wall
  | no_op
  | symmetric
  | unrecognised (code : Nat)
  deriving DecidableEq, Repr

/-- Modelled from the spec: the accessors of the class `Field` of `amr-wind/core/Field.H`
(not among the sources) that the boundary operators read: `num_comp()`, the per-face
boundary-value table `bc_values_device()` and the per-face category table `bc_type()`. -/
structure Field (R : Type) where
  num_comp : Int
  bc_values_device : Orientation → Int → R
  bc_type : Orientation → BC

/-! ## `FieldBCOps.H` -/

/-- The call signature shared by inflow and wall policies:
`(iv, field, geom, time, ori, comp, dcomp, orig_comp)`. The policy mutates what `field`
refers to (and whatever else it records); `σ` is that state. -/
abbrev PolicyOp (σ R : Type) :=
  IntVect → σ → GeometryData R → R → Orientation → Int → Int → Int → σ

/-- The struct `FieldBCNoOp`; it has no members. -/
structure FieldBCNoOp where
  deriving DecidableEq, Repr

/-- The constructor `FieldBCNoOp(const Field&)`, which ignores its argument. -/
def FieldBCNoOp.ofField {R : Type} (_fld : Field R) : FieldBCNoOp := {}

/-- The factory form `FieldBCNoOp::operator()()`: returns a copy of the functor. -/
def FieldBCNoOp.create (self : FieldBCNoOp) : FieldBCNoOp := self

/-- The fill form `FieldBCNoOp::operator()(iv, field, dcomp, numcomp, geom, time, bcr,
bcomp, orig_comp)`: the body is empty. -/
def FieldBCNoOp.operator {σ R : Type} (_self : FieldBCNoOp) (_iv : IntVect) (field : σ)
    (_dcomp _numcomp : Int) (_geom : GeometryData R) (_time : R) (_bcr : Int → BCRec)
    (_bcomp _orig_comp : Int) : σ :=
  field

/-- The member `FieldBCNoOp::set_inflow`: the body is empty. -/
def FieldBCNoOp.set_inflow {σ R : Type} (_self : FieldBCNoOp) : PolicyOp σ R :=
  fun _iv field _geom _time _ori _comp _dcomp _orig_comp => field

/-- The struct `ConstDirichlet`: the component count and the per-face value pointers. -/
structure ConstDirichlet (R : Type) where
  m_ncomp : Int
  m_bcv : Orientation → Int → R

/-- The constructor `ConstDirichlet(const Field& fld)`. -/
def ConstDirichlet.ofField {R : Type} (fld : Field R) : ConstDirichlet R :=
  { m_ncomp := fld.num_comp, m_bcv := fld.bc_values_device }

/-- The member `ConstDirichlet::device_instance()`. -/
def ConstDirichlet.device_instance {R : Type} (self : ConstDirichlet R) :
    ConstDirichlet R := self

/-- The policy `ConstDirichlet::operator()`:
`field(iv[0], iv[1], iv[2], dcomp + comp) = m_bcv[ori][orig_comp + comp]`. -/
def ConstDirichlet.operator {R : Type} (self : ConstDirichlet R) :
    PolicyOp (Array4 R) R :=
  fun iv field _geom _time ori comp dcomp orig_comp =>
    Array4.set field (iv 0) (iv 1) (iv 2) (dcomp + comp) (self.m_bcv ori (orig_comp + comp))

/-- The struct `DirichletOp<InflowOp, WallOp>`. -/
structure DirichletOp (σ R : Type) where
  m_ncomp : Int
  m_bc_type : Orientation → BC
  m_inflow_op : PolicyOp σ R
  m_wall_op : PolicyOp σ R

/-- The constructor `DirichletOp(fld, inflow_op, wall_op)`. -/
def DirichletOp.ofFieldOps {σ R : Type} (fld : Field R) (inflow_op wall_op : PolicyOp σ R) :
    DirichletOp σ R :=
  { m_ncomp := fld.num_comp, m_bc_type := fld.bc_type,
    m_inflow_op := inflow_op, m_wall_op := wall_op }

/-- The values of the loop variable of `for (int n = 0; n < numcomp; ++n)`. -/
def compRange (numcomp : Int) : List Int :=
  (List.range numcomp.toNat).map Int.ofNat

/-- The lookup `ori.isLow() ? bc.lo(idir) : bc.hi(idir)`. -/
def BCRec.onFace (bc : BCRec) (ori : Orientation) : Int :=
  if ori.isLow then bc.lo ori.coordDir else bc.hi ori.coordDir

/-- The test `is_bndry` of `DirichletOp::operator()`: the cell is outside the domain on
the side of `ori` along the axis of `ori`. -/
def isBndry (domain_box : Box) (iv : IntVect) (ori : Orientation) : Bool :=
  if ori.isLow then decide (iv ori.coordDir < domain_box.smallEnd ori.coordDir)
  else decide (iv ori.coordDir > domain_box.bigEnd ori.coordDir)

/-- The body of the orientation loop of `DirichletOp::operator()` for one face. -/
def DirichletOp.faceStep {σ R : Type} (self : DirichletOp σ R) (iv : IntVect)
    (dcomp : Int) (geom : GeometryData R) (time : R) (bc : BCRec) (orig_comp : Int)
    (n : Int) (field : σ) (ori : Orientation) : σ :=
  let bctyp := bc.onFace ori
  if bctyp ≠ BCType.ext_dir then field
  else
    let is_bndry := isBndry geom.Domain iv ori
    if !is_bndry then field
    else if self.m_bc_type ori = BC.mass_inflow then
      self.m_inflow_op iv field geom time ori n dcomp orig_comp
    else
      self.m_wall_op iv field geom time ori n dcomp orig_comp

/-- The body of the component loop of `DirichletOp::operator()` for one `n`. -/
def DirichletOp.compStep {σ R : Type} (self : DirichletOp σ R) (iv : IntVect)
    (dcomp : Int) (geom : GeometryData R) (time : R) (bcr : Int → BCRec)
    (bcomp orig_comp : Int) (field : σ) (n : Int) : σ :=
  let bc := bcr (bcomp + n)
  OrientationIter.foldl (self.faceStep iv dcomp geom time bc orig_comp n) field

/-- The member `DirichletOp::operator()(iv, field, dcomp, numcomp, geom, time, bcr, bcomp,
orig_comp)`; the result is the state after the call. -/
def DirichletOp.operator {σ R : Type} (self : DirichletOp σ R) (iv : IntVect) (field : σ)
    (dcomp numcomp : Int) (geom : GeometryData R) (time : R) (bcr : Int → BCRec)
    (bcomp orig_comp : Int) : σ :=
  (compRange numcomp).foldl (self.compStep iv dcomp geom time bcr bcomp orig_comp) field

/-- The member `DirichletOp::set_inflow`. -/
def DirichletOp.set_inflow {σ R : Type} (self : DirichletOp σ R) : PolicyOp σ R :=
  fun iv field geom time ori comp dcomp orig_comp =>
    self.m_inflow_op iv field geom time ori comp dcomp orig_comp

/-- The constructor `DirichletOp<ConstDirichlet, ConstDirichlet>(fld)`: both policies are
built from the same field. -/
def DirichletOp.ofField {R : Type} (fld : Field R) : DirichletOp (Array4 R) R :=
  { m_ncomp := fld.num_comp, m_bc_type := fld.bc_type,
    m_inflow_op := (ConstDirichlet.ofField fld).operator,
    m_wall_op := (ConstDirichlet.ofField fld).operator }

/-- The struct `FieldBCDirichlet`, which keeps a reference to the field. -/
structure FieldBCDirichlet (R : Type) where
  m_field : Field R

/-- The factory `FieldBCDirichlet::operator()()`, returning `FunctorType(m_field)`. -/
def FieldBCDirichlet.create {R : Type} (self : FieldBCDirichlet R) :
    DirichletOp (Array4 R) R :=
  DirichletOp.ofField self.m_field

/-! ### Recording policies

The routing claims speak of which policy is invoked. The two policies below only append
a record of their arguments to a log; `DirichletOp.trace` is the log that
`DirichletOp::operator()` produces with them. -/

/-- Which of the two policy members of `DirichletOp` was called. -/
inductive PolicyTag where
  | inflow
  | wall
  deriving DecidableEq, Repr

/-- One policy call made by `DirichletOp::operator()`, with the arguments that vary. -/
structure Invocation where
  tag : PolicyTag
  iv : IntVect
  ori : Orientation
  comp : Int
  dcomp : Int
  orig_comp : Int
  deriving DecidableEq

/-- A policy that records its call and does nothing else. -/
def recordingOp {R : Type} (tag : PolicyTag) : PolicyOp (List Invocation) R :=
  fun iv log _geom _time ori comp dcomp orig_comp =>
    log ++ [{ tag := tag, iv := iv, ori := ori, comp := comp, dcomp := dcomp,
              orig_comp := orig_comp }]

/-- The dispatch functor over the category table `bc_type` with recording policies. -/
def DirichletOp.recorder {R : Type} (ncomp : Int) (bc_type : Orientation → BC) :
    DirichletOp (List Invocation) R :=
  { m_ncomp := ncomp, m_bc_type := bc_type,
    m_inflow_op := recordingOp PolicyTag.inflow, m_wall_op := recordingOp PolicyTag.wall }

/-- The sequence of policy calls of one `DirichletOp::operator()` call. -/
def DirichletOp.trace {R : Type} (bc_type : Orientation → BC) (iv : IntVect)
    (dcomp numcomp : Int) (geom : GeometryData R) (time : R) (bcr : Int → BCRec)
    (bcomp orig_comp : Int) : List Invocation :=
  (DirichletOp.recorder 0 bc_type).operator iv [] dcomp numcomp geom time bcr bcomp orig_comp

/-- Replaying one recorded call with the policies of `self`. -/
def DirichletOp.replay {σ R : Type} (self : DirichletOp σ R) (geom : GeometryData R)
    (time : R) (field : σ) (c : Invocation) : σ :=
  match c.tag with
  | PolicyTag.inflow => self.m_inflow_op c.iv field geom time c.ori c.comp c.dcomp c.orig_comp
  | PolicyTag.wall => self.m_wall_op c.iv field geom time c.ori c.comp c.dcomp c.orig_comp

/-! ## `fvm/gradient.H` and `fvm/laplacian.H` -/

/-- The part of `amrex::Geometry` the operators read: the domain box, the low corner of
the physical domain, the cell size and the stored inverse cell size. -/
structure Geometry (R : Type) where
  domain : Box
  prob_lo : Fin 3 → R
  dx : Fin 3 → R
  inv_dx : Fin 3 → R

/-- The accessor `Geometry::InvCellSizeArray()`. -/
def Geometry.InvCellSizeArray {R : Type} (geom : Geometry R) : Fin 3 → R := geom.inv_dx

/-- The template parameter `Stencil` of `apply`: the first-derivative coefficients
`c00 .. c22`, the second-derivative coefficients `s00 .. s22` (first digit the axis, second
digit `0, 1, 2` for the cell above, the cell itself and the cell below) and the static
member `box(bx_in, geom)`. The stencil types themselves are declared in a header that is
not among the sources, so a stencil is a parameter here. -/
structure Stencil (R : Type) where
  c00 : R
  c01 : R
  c02 : R
  c10 : R
  c11 : R
  c12 : R
  c20 : R
  c21 : R
  c22 : R
  s00 : R
  s01 : R
  s02 : R
  s10 : R
  s11 : R
  s12 : R
  s20 : R
  s21 : R
  s22 : R
  box : Box → Geometry R → Box

/-- A field type `FTypeIn` / `FTypeOut` as `apply(lev, mfi)` sees it: `num_comp()` and the
array of the patch `mfi` of level `lev`. -/
structure FieldPatch (R : Type) where
  num_comp : Int
  arr : Array4 R

/-- The integers `lo, lo + 1, .., hi` (none when `hi < lo`). -/
def intRange (lo hi : Int) : List Int :=
  (List.range (hi + 1 - lo).toNat).map (fun t : Nat => lo + (t : Int))

/-- The cells of a box in the order of the loop nest of `amrex::ParallelFor`:
`k` outermost, `i` innermost. -/
def Box.cells (bx : Box) : List (Int × Int × Int) :=
  (intRange (bx.smallEnd 2) (bx.bigEnd 2)).flatMap fun k =>
    (intRange (bx.smallEnd 1) (bx.bigEnd 1)).flatMap fun j =>
      (intRange (bx.smallEnd 0) (bx.bigEnd 0)).map fun i => (i, j, k)

/-- The call `amrex::ParallelFor(bx, f)`: `f(i, j, k)` is run for every cell of `bx`. -/
def ParallelFor {σ : Type} (bx : Box) (f : Int → Int → Int → σ → σ) (s : σ) : σ :=
  bx.cells.foldl (fun s c => f c.1 c.2.1 c.2.2 s) s

/-- The struct `Gradient<FTypeIn, FTypeOut>`: references to the output and input field. -/
structure Gradient (R : Type) where
  m_gradphi : FieldPatch R
  m_phi : FieldPatch R

/-- The constructor `Gradient(gradphi, phi)`; `none` is the abort of
`AMREX_ALWAYS_ASSERT(gradphi.num_comp() == AMREX_SPACEDIM * phi.num_comp())`. -/
def Gradient.new {R : Type} (gradphi phi : FieldPatch R) : Option (Gradient R) :=
  if gradphi.num_comp = 3 * phi.num_comp then some { m_gradphi := gradphi, m_phi := phi }
  else none

/-- The body of the `icomp` loop of `Gradient::apply` at the cell `(i, j, k)`. -/
def Gradient.compBody {R : Type} [Add R] [Mul R] (S : Stencil R) (idx : Fin 3 → R)
    (phi_arr : Array4 R) (i j k : Int) (gradphi_arr : Array4 R) (icomp : Int) : Array4 R :=
  let g0 := Array4.set gradphi_arr i j k (icomp * 3 + 0)
    ((S.c00 * phi_arr (i + 1) j k icomp + S.c01 * phi_arr i j k icomp +
      S.c02 * phi_arr (i - 1) j k icomp) * idx 0)
  let g1 := Array4.set g0 i j k (icomp * 3 + 1)
    ((S.c10 * phi_arr i (j + 1) k icomp + S.c11 * phi_arr i j k icomp +
      S.c12 * phi_arr i (j - 1) k icomp) * idx 1)
  Array4.set g1 i j k (icomp * 3 + 2)
    ((S.c20 * phi_arr i j (k + 1) icomp + S.c21 * phi_arr i j k icomp +
      S.c22 * phi_arr i j (k - 1) icomp) * idx 2)

/-- The lambda passed to `ParallelFor` in `Gradient::apply`. -/
def Gradient.kernel {R : Type} [Add R] [Mul R] (S : Stencil R) (idx : Fin 3 → R)
    (ncomp : Int) (phi_arr : Array4 R) (i j k : Int) (gradphi_arr : Array4 R) : Array4 R :=
  (compRange ncomp).foldl (Gradient.compBody S idx phi_arr i j k) gradphi_arr

/-- The member `Gradient::apply<Stencil>(lev, mfi)`, given the geometry of the level and
the tile box of `mfi`; the result is the output array after the call. -/
def Gradient.apply {R : Type} [Add R] [Mul R] (self : Gradient R) (S : Stencil R)
    (geom : Geometry R) (tilebox : Box) : Array4 R :=
  let ncomp := self.m_phi.num_comp
  let idx := geom.InvCellSizeArray
  let gradphi_arr := self.m_gradphi.arr
  let phi_arr := self.m_phi.arr
  let bx_in := tilebox
  let bx := S.box bx_in geom
  if bx.isEmpty then gradphi_arr
  else ParallelFor bx (Gradient.kernel S idx ncomp phi_arr) gradphi_arr

/-- The struct `Laplacian<FTypeIn, FTypeOut>`. -/
structure Laplacian (R : Type) where
  m_lapphi : FieldPatch R
  m_phi : FieldPatch R

/-- The constructor `Laplacian(lphi, phi)`; `none` is the abort of one of
`AMREX_ALWAYS_ASSERT(m_lapphi.num_comp() == 1)` and
`AMREX_ALWAYS_ASSERT(m_phi.num_comp() == AMREX_SPACEDIM)`. -/
def Laplacian.new {R : Type} (lphi phi : FieldPatch R) : Option (Laplacian R) :=
  if lphi.num_comp = 1 then
    if phi.num_comp = 3 then some { m_lapphi := lphi, m_phi := phi } else none
  else none

/-- The body of the `icomp` loop of `Laplacian::apply` at the cell `(i, j, k)`; the loop
variable is not used by the body. -/
def Laplacian.compBody {R : Type} [Add R] [Mul R] (S : Stencil R) (idx : Fin 3 → R)
    (phi : Array4 R) (i j k : Int) (lapphi : Array4 R) (_icomp : Int) : Array4 R :=
  let d2phidx2 :=
    (S.s00 * phi (i + 1) j k 0 + S.s01 * phi i j k 0 + S.s02 * phi (i - 1) j k 0) *
      idx 0 * idx 0
  let d2phidy2 :=
    (S.s10 * phi i (j + 1) k 1 + S.s11 * phi i j k 1 + S.s12 * phi i (j - 1) k 1) *
      idx 1 * idx 1
  let d2phidz2 :=
    (S.s20 * phi i j (k + 1) 2 + S.s21 * phi i j k 2 + S.s22 * phi i j (k - 1) 2) *
      idx 2 * idx 2
  Array4.set lapphi i j k 0 (d2phidx2 + d2phidy2 + d2phidz2)

/-- The lambda passed to `ParallelFor` in `Laplacian::apply`. -/
def Laplacian.kernel {R : Type} [Add R] [Mul R] (S : Stencil R) (idx : Fin 3 → R)
    (ncomp : Int) (phi : Array4 R) (i j k : Int) (lapphi : Array4 R) : Array4 R :=
  (compRange ncomp).foldl (Laplacian.compBody S idx phi i j k) lapphi

/-- The member `Laplacian::apply<Stencil>(lev, mfi)`, given the geometry of the level and
the tile box of `mfi`; the result is the output array after the call. -/
def Laplacian.apply {R : Type} [Add R] [Mul R] (self : Laplacian R) (S : Stencil R)
    (geom : Geometry R) (tilebox : Box) : Array4 R :=
  let ncomp := self.m_phi.num_comp
  let idx := geom.InvCellSizeArray
  let lapphi := self.m_lapphi.arr
  let phi := self.m_phi.arr
  let bx_in := tilebox
  let bx := S.box bx_in geom
  if bx.isEmpty then lapphi
  else ParallelFor bx (Laplacian.kernel S idx ncomp phi) lapphi

/-! ### Vocabulary of the stencil statements -/

/-- The cell `(i, j, k)` lies in the box. -/
def Box.contains (bx : Box) (i j k : Int) : Prop :=
  (bx.smallEnd 0 ≤ i ∧ i ≤ bx.bigEnd 0) ∧ (bx.smallEnd 1 ≤ j ∧ j ≤ bx.bigEnd 1) ∧
    (bx.smallEnd 2 ≤ k ∧ k ≤ bx.bigEnd 2)

/-- Membership of a cell in a box is decidable. -/
instance Box.decidableContains (bx : Box) (i j k : Int) : Decidable (bx.contains i j k) :=
  inferInstanceAs (Decidable
    ((bx.smallEnd 0 ≤ i ∧ i ≤ bx.bigEnd 0) ∧ (bx.smallEnd 1 ≤ j ∧ j ≤ bx.bigEnd 1) ∧
      (bx.smallEnd 2 ≤ k ∧ k ≤ bx.bigEnd 2)))

/-- The value of `a` at the cell `(i, j, k)` moved by `t` cells along axis `d`. -/
def Array4.shifted {R : Type} (a : Array4 R) (d : Fin 3) (t : Int) (i j k n : Int) : R :=
  match d with
  | 0 => a (i + t) j k n
  | 1 => a i (j + t) k n
  | 2 => a i j (k + t) n

/-- The first-derivative coefficient of axis `d`: `s = 0, 1, 2` for the cell above, the
cell itself and the cell below (`Stencil::c<d><s>`). -/
def Stencil.c {R : Type} (S : Stencil R) (d s : Fin 3) : R :=
  match d, s with
  | 0, 0 => S.c00
  | 0, 1 => S.c01
  | 0, 2 => S.c02
  | 1, 0 => S.c10
  | 1, 1 => S.c11
  | 1, 2 => S.c12
  | 2, 0 => S.c20
  | 2, 1 => S.c21
  | 2, 2 => S.c22

/-- The second-derivative coefficient of axis `d` (`Stencil::s<d><s>`). -/
def Stencil.s {R : Type} (S : Stencil R) (d s : Fin 3) : R :=
  match d, s with
  | 0, 0 => S.s00
  | 0, 1 => S.s01
  | 0, 2 => S.s02
  | 1, 0 => S.s10
  | 1, 1 => S.s11
  | 1, 2 => S.s12
  | 2, 0 => S.s20
  | 2, 1 => S.s21
  | 2, 2 => S.s22

/-- The coordinate `Geometry::CellCenter(point, dir)` of the centre of the cells of index
`point` along axis `dir`: `prob_lo[dir] + dx[dir] * (1/2 + point)`. -/
def Geometry.CellCenter {K : Type} [DivisionRing K] (geom : Geometry K) (point : Int)
    (dir : Fin 3) : K :=
  geom.prob_lo dir + geom.dx dir * (1 / 2 + (point : K))

/-- The centre of the cell `(i, j, k)`. -/
def Geometry.cellCentre {K : Type} [DivisionRing K] (geom : Geometry K) (i j k : Int) :
    Fin 3 → K :=
  fun d =>
    match d with
    | 0 => geom.CellCenter i 0
    | 1 => geom.CellCenter j 1
    | 2 => geom.CellCenter k 2

/-- The value `Gradient::apply` stores in output component `c * 3 + d` of the cell
`(i, j, k)`: the three-point sum along axis `d` times the inverse cell size of `d`. -/
def Gradient.entry {R : Type} [Add R] [Mul R] (S : Stencil R) (idx : Fin 3 → R)
    (phi_arr : Array4 R) (i j k c : Int) (d : Fin 3) : R :=
  (S.c d 0 * phi_arr.shifted d 1 i j k c + S.c d 1 * phi_arr i j k c +
    S.c d 2 * phi_arr.shifted d (-1) i j k c) * idx d

/-- The three-point second-difference sum of input component `d` along axis `d` at the
cell `(i, j, k)`, before the scaling by the inverse cell size. -/
def Laplacian.axisSum {R : Type} [Add R] [Mul R] (S : Stencil R) (phi : Array4 R)
    (i j k : Int) (d : Fin 3) : R :=
  S.s d 0 * phi.shifted d 1 i j k (d.val : Int) + S.s d 1 * phi i j k (d.val : Int) +
    S.s d 2 * phi.shifted d (-1) i j k (d.val : Int)

/-! ### The call list in closed form (used by the proofs) -/

/-- The policy member chosen by `if (m_bc_type[ori] == BC::mass_inflow)`. -/
def dispatchTag (b : BC) : PolicyTag :=
  if b = BC.mass_inflow then PolicyTag.inflow else PolicyTag.wall

/-- The calls made for one component and one face: one call when the face is `ext_dir`
for the record and the cell is on its strip, none otherwise. -/
def faceCalls {R : Type} (bc_type : Orientation → BC) (iv : IntVect) (dcomp : Int)
    (geom : GeometryData R) (bc : BCRec) (orig_comp n : Int) (ori : Orientation) :
    List Invocation :=
  if bc.onFace ori = BCType.ext_dir ∧ isBndry geom.Domain iv ori = true then
    [{ tag := dispatchTag (bc_type ori), iv := iv, ori := ori, comp := n, dcomp := dcomp,
       orig_comp := orig_comp }]
  else []

/-- The calls made for one component, in face order. -/
def compCalls {R : Type} (bc_type : Orientation → BC) (iv : IntVect) (dcomp : Int)
    (geom : GeometryData R) (bcr : Int → BCRec) (bcomp orig_comp n : Int) :
    List Invocation :=
  OrientationIter.flatMap (faceCalls bc_type iv dcomp geom (bcr (bcomp + n)) orig_comp n)

/-- All calls of one `DirichletOp::operator()` call, in program order. -/
def dispatchCalls {R : Type} (bc_type : Orientation → BC) (iv : IntVect)
    (dcomp numcomp : Int) (geom : GeometryData R) (bcr : Int → BCRec)
    (bcomp orig_comp : Int) : List Invocation :=
  (compRange numcomp).flatMap (compCalls bc_type iv dcomp geom bcr bcomp orig_comp)

/-- The value a recorded call stores when both policies are `ConstDirichlet`:
`m_bcv[ori][orig_comp + comp]` of the policy that was called. -/
def constValue {R : Type} (inflow wall : ConstDirichlet R) (c : Invocation) : R :=
  match c.tag with
  | PolicyTag.inflow => inflow.m_bcv c.ori (c.orig_comp + c.comp)
  | PolicyTag.wall => wall.m_bcv c.ori (c.orig_comp + c.comp)

/-- The recorded call writes the entry `(i, j, k, m)`. -/
def Invocation.hits (i j k m : Int) (c : Invocation) : Bool :=
  decide (i = c.iv 0 ∧ j = c.iv 1 ∧ k = c.iv 2 ∧ m = c.dcomp + c.comp)

/-- The last call of a list that writes the entry `(i, j, k, m)`, if any. -/
def lastHit (l : List Invocation) (i j k m : Int) : Option Invocation :=
  l.reverse.find? (Invocation.hits i j k m)

/-! ### Concrete data used by the examples -/

/-- The domain box `[0, 3]³`. -/
def exDomain : Box := { smallEnd := fun _ => 0, bigEnd := fun _ => 3 }

/-- A unit-spacing geometry on `exDomain`. -/
def exGeom : GeometryData ℚ := { domain := exDomain, prob_lo := fun _ => 0, dx := fun _ => 1 }

/-- A record with every face `ext_dir`. -/
def exBCRecAllDir : BCRec := { lo := fun _ => BCType.ext_dir, hi := fun _ => BCType.ext_dir }

/-- A record table whose every record has every face `ext_dir`. -/
def exBcrAllDir : Int → BCRec := fun _ => exBCRecAllDir

/-- A record with only the low-x face `ext_dir`. -/
def exBCRecLowX : BCRec :=
  { lo := fun d => if d = 0 then BCType.ext_dir else BCType.int_dir,
    hi := fun _ => BCType.int_dir }

/-- A one-component field: category `wall` on every face, boundary value `10` on the
low-x face and `20` on every other face. -/
def exFieldWall : Field ℚ :=
  { num_comp := 1, bc_values_device := fun ori _ => if ori = 0 then 10 else 20,
    bc_type := fun _ => BC.wall }

/-- A one-component field: category `no_op` on every face, boundary value `10`. -/
def exFieldNoOp : Field ℚ :=
  { num_comp := 1, bc_values_device := fun _ _ => 10, bc_type := fun _ => BC.no_op }

/-- A one-component field with category `mass_inflow` on the low-x face and `wall`
elsewhere, boundary value `10`. -/
def exFieldInflow : Field ℚ :=
  { num_comp := 1, bc_values_device := fun _ _ => 10,
    bc_type := fun ori => if ori = 0 then BC.mass_inflow else BC.wall }

/-- The corner cell `(-1, -1, 0)`, below the domain in x and in y. -/
def exCorner : IntVect := fun d => if d = 2 then 0 else -1

/-- The cell `(-1, 0, 0)`, below the domain in x only. -/
def exLowX : IntVect := fun d => if d = 0 then -1 else 0

/-- The cell `(1, 1, 1)`, inside the domain. -/
def exInterior : IntVect := fun _ => 1

/-- The field storage that is `0` everywhere. -/
def exZero : Array4 ℚ := fun _ _ _ _ => 0

/-- The interior (central) stencil: first-derivative triple `(1/2, 0, -1/2)` and
second-derivative triple `(1, -2, 1)` on every axis; its box is the tile box. -/
def exStencil : Stencil ℚ :=
  { c00 := 1 / 2, c01 := 0, c02 := -1 / 2, c10 := 1 / 2, c11 := 0, c12 := -1 / 2,
    c20 := 1 / 2, c21 := 0, c22 := -1 / 2,
    s00 := 1, s01 := -2, s02 := 1, s10 := 1, s11 := -2, s12 := 1,
    s20 := 1, s21 := -2, s22 := 1,
    box := fun bx _ => bx }

/-- A geometry on `exDomain` with cell size `1/2` (inverse `2`) on every axis and low
corner `-1/4`, so that the centre of the cell of index `i` is at `i / 2`. -/
def exGeometry : Geometry ℚ :=
  { domain := exDomain, prob_lo := fun _ => -1 / 4, dx := fun _ => 1 / 2,
    inv_dx := fun _ => 2 }

/-- A three-component input: component `c` at `(i, j, k)` is `i * i + 3 * j + c * k`. -/
def exPhi : FieldPatch ℚ :=
  { num_comp := 3, arr := fun i j k c => (i : ℚ) * i + 3 * j + c * k }

/-- A nine-component output for the gradient, initially `0`. -/
def exGradOut : FieldPatch ℚ := { num_comp := 9, arr := fun _ _ _ _ => 0 }

/-- A one-component output for the Laplacian, initially `0`. -/
def exLapOut : FieldPatch ℚ := { num_comp := 1, arr := fun _ _ _ _ => 0 }

/-- The gradient operator over `exGradOut` and `exPhi`. -/
def exGradient : Gradient ℚ := { m_gradphi := exGradOut, m_phi := exPhi }

/-- The Laplacian operator over `exLapOut` and `exPhi`. -/
def exLaplacian : Laplacian ℚ := { m_lapphi := exLapOut, m_phi := exPhi }

/-! ### Construction of the boundary operators as an outcome -/

/-- Modelled from the spec: the storage behind `Field::bc_values_device()` of
`amr-wind/core/Field.H` (not among the sources), "one real number array per face,
indexable by component". `bc_values_size ori` is the number of values stored for the face
`ori`; the pointer handed out for that face is valid for the indices below it. -/
structure FieldStorage (R : Type) where
  fld : Field R
  bc_values_size : Orientation → Nat

/-- The constructor `ConstDirichlet(const Field& fld)` as an outcome, `none` standing for
an abort as in `Gradient.new`. Its body is the member initialiser list only; it contains no
assertion and does not look at the size of the tables. -/
def ConstDirichlet.new {R : Type} (st : FieldStorage R) : Option (ConstDirichlet R) :=
  some (ConstDirichlet.ofField st.fld)

/-- The constructor `DirichletOp<ConstDirichlet, ConstDirichlet>(const Field& fld)` as an
outcome; like `ConstDirichlet.new` it contains no assertion. -/
def DirichletOp.new {R : Type} (st : FieldStorage R) : Option (DirichletOp (Array4 R) R) :=
  some (DirichletOp.ofField st.fld)

/-! ### Vocabulary of the corner statement -/

/-- The face is `ext_dir` in the record and the cell is on its strip: the two tests a face
has to pass in `DirichletOp::operator()` before a policy is called. -/
def qualifies (bc : BCRec) (domain_box : Box) (iv : IntVect) (ori : Orientation) : Bool :=
  decide (bc.onFace ori = BCType.ext_dir) && isBndry domain_box iv ori

/-- The last face, in the order of `OrientationIter`, that is `ext_dir` in the record and
has the cell on its strip. -/
def lastExtDirFace (bc : BCRec) (domain_box : Box) (iv : IntVect) : Option Orientation :=
  (OrientationIter.filter (qualifies bc domain_box iv)).getLast?

/-! ### More concrete data used by the examples -/

/-- An empty box: its high end is below its low end on every axis. -/
def exEmptyBox : Box := { smallEnd := fun _ => 0, bigEnd := fun _ => -1 }

/-- A two-component field whose per-face boundary-value arrays hold one value only. -/
def exShortStorage : FieldStorage ℚ :=
  { fld := { num_comp := 2, bc_values_device := fun _ _ => 10, bc_type := fun _ => BC.wall },
    bc_values_size := fun _ => 1 }

/-- The field `exFieldWall` with the category of every face changed to `mass_inflow`. -/
def exFieldWallAsInflow : Field ℚ :=
  { num_comp := 1, bc_values_device := fun ori _ => if ori = 0 then 10 else 20,
    bc_type := fun _ => BC.mass_inflow }

/-- A record with no face `ext_dir`. -/
def exBCRecNoDir : BCRec := { lo := fun _ => BCType.foextrap, hi := fun _ => BCType.int_dir }

/-! ### The Laplacian kernel of the redundancy statement -/

/-- The kernel the redundancy statement compares with: at the cell `(i, j, k)` the
three-axis second-difference sum is evaluated once and stored in the output component;
there is no loop over components. -/
def Laplacian.kernelOnce {R : Type} [Add R] [Mul R] (S : Stencil R) (idx : Fin 3 → R)
    (phi : Array4 R) (i j k : Int) (lapphi : Array4 R) : Array4 R :=
  Array4.set lapphi i j k 0
    (Laplacian.axisSum S phi i j k 0 * idx 0 * idx 0 +
      Laplacian.axisSum S phi i j k 1 * idx 1 * idx 1 +
      Laplacian.axisSum S phi i j k 2 * idx 2 * idx 2)

/-- The operator of the redundancy statement: `kernelOnce` run on every cell of the
effective box; the component count of the input is not consulted. -/
def Laplacian.applyOnce {R : Type} [Add R] [Mul R] (self : Laplacian R) (S : Stencil R)
    (geom : Geometry R) (tilebox : Box) : Array4 R :=
  let bx := S.box tilebox geom
  if bx.isEmpty then self.m_lapphi.arr
  else ParallelFor bx (Laplacian.kernelOnce S geom.InvCellSizeArray self.m_phi.arr)
    self.m_lapphi.arr

/-! ## `equation_systems/icns/source_terms/ABLForcing.H` -/

/-- The accessors of `SimTime` that `ABLForcing` reads through `m_time`: `current_time()`
and `deltaT()`. The class is declared in a header that is not among the sources. -/
structure SimTime (R : Type) where
  current_time : R
  deltaT : R

/-- The functions `set_mean_velocities` calls from outside the repository sources:
`::amr_wind::interp::linear(xinp, yinp, xout)`, `std::cos` and `std::sin`. They are
parameters of the embedding. -/
structure ForcingFuns (R : Type) where
  linear : List R → List R → R → R
  cos : R → R
  sin : R → R

/-- The data members of the class `ABLForcing`. The three-entry arrays `m_abl_forcing`,
`m_target_vel` and `m_mean_vel` are maps from the index `0, 1, 2`. -/
structure ABLForcing (R : Type) where
  m_time : SimTime R
  m_abl_forcing : Fin 3 → R
  m_vel_timetable : String
  m_time_table : List R
  m_speed_table : List R
  m_direction_table : List R
  m_target_vel : Fin 3 → R
  m_mean_vel : Fin 3 → R
  m_forcing_height : R

/-- The member `ABLForcing::set_target_velocities(ux, uy)`. -/
def ABLForcing.set_target_velocities {R : Type} (self : ABLForcing R) (ux uy : R) :
    ABLForcing R :=
  { self with m_target_vel := Function.update (Function.update self.m_target_vel 0 ux) 1 uy }

/-- The member `ABLForcing::set_mean_velocities(ux, uy)`; the result is the object after
the call. -/
def ABLForcing.set_mean_velocities {R : Type} [Sub R] [Mul R] [Div R] (F : ForcingFuns R)
    (self : ABLForcing R) (ux uy : R) : ABLForcing R :=
  let m_mean_vel := Function.update (Function.update self.m_mean_vel 0 ux) 1 uy
  let current_time := self.m_time.current_time
  let dt := self.m_time.deltaT
  let m_target_vel :=
    if !self.m_vel_timetable.isEmpty then
      let current_spd := F.linear self.m_time_table self.m_speed_table current_time
      let current_dir := F.linear self.m_time_table self.m_direction_table current_time
      Function.update (Function.update self.m_target_vel 0 (current_spd * F.cos current_dir))
        1 (current_spd * F.sin current_dir)
    else self.m_target_vel
  let forcing0 := Function.update self.m_abl_forcing 0 ((m_target_vel 0 - m_mean_vel 0) / dt)
  let forcing1 := Function.update forcing0 1 ((m_target_vel 1 - m_mean_vel 1) / dt)
  { self with m_mean_vel := m_mean_vel, m_target_vel := m_target_vel,
              m_abl_forcing := forcing1 }

/-- The member `ABLForcing::abl_forcing()`. -/
def ABLForcing.abl_forcing {R : Type} (self : ABLForcing R) : Fin 3 → R := self.m_abl_forcing

/-- The member `ABLForcing::forcing_height()`. -/
def ABLForcing.forcing_height {R : Type} (self : ABLForcing R) : R := self.m_forcing_height

/-- Stand-in outside functions for the examples; the branch that calls them is not taken
when no time table is configured. -/
def exForcingFuns : ForcingFuns ℚ :=
  { linear := fun _ _ _ => 0, cos := fun _ => 1, sin := fun _ => 0 }

/-- A forcing object with no time table, time step `1/2`, target velocity `(8, 6, 0)`,
mean velocity `(1, 1, 7)` and forcing `(0, 0, 5)`. -/
def exForcing : ABLForcing ℚ :=
  { m_time := { current_time := 3, deltaT := 1 / 2 },
    m_abl_forcing := fun d => if d = 2 then 5 else 0,
    m_vel_timetable := "",
    m_time_table := [], m_speed_table := [], m_direction_table := [],
    m_target_vel := fun d => if d = 0 then 8 else if d = 1 then 6 else 0,
    m_mean_vel := fun d => if d = 2 then 7 else 1,
    m_forcing_height := 90 }

/-! ## Theorems -/

/-! ### Boundary dispatch: the call list -/

theorem foldl_flatMap_steps {α β σ : Type} (f : σ → α → σ) (r : σ → β → σ)
    (g : α → List β) (hf : ∀ s x, f s x = (g x).foldl r s) (l : List α) (s : σ) :
    l.foldl f s = (l.flatMap g).foldl r s := by
  induction l generalizing s with
  | nil => rfl
  | cons x xs ih =>
    simp only [List.foldl_cons, List.flatMap_cons, List.foldl_append]
    rw [hf, ih]

theorem faceStep_eq_replay {σ R : Type} (self : DirichletOp σ R) (iv : IntVect)
    (dcomp : Int) (geom : GeometryData R) (time : R) (bc : BCRec) (orig_comp n : Int)
    (field : σ) (ori : Orientation) :
    self.faceStep iv dcomp geom time bc orig_comp n field ori =
      (faceCalls self.m_bc_type iv dcomp geom bc orig_comp n ori).foldl
        (self.replay geom time) field := by
  unfold DirichletOp.faceStep faceCalls
  by_cases h1 : bc.onFace ori = BCType.ext_dir
  · by_cases h2 : isBndry geom.Domain iv ori = true
    · by_cases h3 : self.m_bc_type ori = BC.mass_inflow
      · simp [h1, h2, h3, dispatchTag, DirichletOp.replay]
      · simp [h1, h2, h3, dispatchTag, DirichletOp.replay]
    · simp [h1, h2]
  · simp [h1]

theorem compStep_eq_replay {σ R : Type} (self : DirichletOp σ R) (iv : IntVect)
    (dcomp : Int) (geom : GeometryData R) (time : R) (bcr : Int → BCRec)
    (bcomp orig_comp : Int) (field : σ) (n : Int) :
    self.compStep iv dcomp geom time bcr bcomp orig_comp field n =
      (compCalls self.m_bc_type iv dcomp geom bcr bcomp orig_comp n).foldl
        (self.replay geom time) field := by
  unfold DirichletOp.compStep compCalls
  exact foldl_flatMap_steps _ _ _
    (fun s ori => faceStep_eq_replay self iv dcomp geom time _ orig_comp n s ori) _ _

/-- For every pair of policies, `DirichletOp::operator()` is the replay of the closed-form
call list. -/
theorem operator_eq_replay {σ R : Type} (self : DirichletOp σ R) (iv : IntVect) (field : σ)
    (dcomp numcomp : Int) (geom : GeometryData R) (time : R) (bcr : Int → BCRec)
    (bcomp orig_comp : Int) :
    self.operator iv field dcomp numcomp geom time bcr bcomp orig_comp =
      (dispatchCalls self.m_bc_type iv dcomp numcomp geom bcr bcomp orig_comp).foldl
        (self.replay geom time) field := by
  unfold DirichletOp.operator dispatchCalls
  exact foldl_flatMap_steps _ _ _
    (fun s n => compStep_eq_replay self iv dcomp geom time bcr bcomp orig_comp s n) _ _

theorem foldl_recorder_replay {R : Type} (ncomp : Int) (bc_type : Orientation → BC)
    (geom : GeometryData R) (time : R) (l log : List Invocation) :
    l.foldl ((DirichletOp.recorder ncomp bc_type).replay geom time) log = log ++ l := by
  induction l generalizing log with
  | nil => simp
  | cons c cs ih =>
    rw [List.foldl_cons, ih]
    cases c with
    | mk tag iv ori comp dcomp orig_comp =>
      cases tag <;> simp [DirichletOp.replay, DirichletOp.recorder, recordingOp]

/-- The log of the recording policies is the closed-form call list. -/
theorem trace_eq_dispatchCalls {R : Type} (bc_type : Orientation → BC) (iv : IntVect)
    (dcomp numcomp : Int) (geom : GeometryData R) (time : R) (bcr : Int → BCRec)
    (bcomp orig_comp : Int) :
    DirichletOp.trace bc_type iv dcomp numcomp geom time bcr bcomp orig_comp =
      dispatchCalls bc_type iv dcomp numcomp geom bcr bcomp orig_comp := by
  unfold DirichletOp.trace
  rw [operator_eq_replay, foldl_recorder_replay]
  simp [DirichletOp.recorder]

/-- For every pair of policies, the state after `DirichletOp::operator()` is obtained by
running the recorded calls, in order, with those policies. -/
theorem operator_eq_replay_trace {σ R : Type} (self : DirichletOp σ R) (iv : IntVect)
    (field : σ) (dcomp numcomp : Int) (geom : GeometryData R) (time : R)
    (bcr : Int → BCRec) (bcomp orig_comp : Int) :
    self.operator iv field dcomp numcomp geom time bcr bcomp orig_comp =
      (DirichletOp.trace self.m_bc_type iv dcomp numcomp geom time bcr bcomp orig_comp).foldl
        (self.replay geom time) field := by
  rw [trace_eq_dispatchCalls, operator_eq_replay]

theorem mem_compRange {numcomp n : Int} : n ∈ compRange numcomp ↔ 0 ≤ n ∧ n < numcomp := by
  unfold compRange
  simp only [List.mem_map, List.mem_range]
  constructor
  · rintro ⟨k, hk, rfl⟩
    simp only [Int.ofNat_eq_coe]
    omega
  · rintro ⟨h0, h1⟩
    refine ⟨n.toNat, ?_, ?_⟩
    · omega
    · simp only [Int.ofNat_eq_coe]; omega

theorem mem_OrientationIter (ori : Orientation) : ori ∈ OrientationIter := by
  unfold OrientationIter
  fin_cases ori <;> simp

theorem mem_dispatchCalls {R : Type} {bc_type : Orientation → BC} {iv : IntVect}
    {dcomp numcomp : Int} {geom : GeometryData R} {bcr : Int → BCRec}
    {bcomp orig_comp : Int} {c : Invocation} :
    c ∈ dispatchCalls bc_type iv dcomp numcomp geom bcr bcomp orig_comp ↔
      (0 ≤ c.comp ∧ c.comp < numcomp) ∧
      (bcr (bcomp + c.comp)).onFace c.ori = BCType.ext_dir ∧
      isBndry geom.Domain iv c.ori = true ∧
      c = { tag := dispatchTag (bc_type c.ori), iv := iv, ori := c.ori, comp := c.comp,
            dcomp := dcomp, orig_comp := orig_comp } := by
  unfold dispatchCalls compCalls faceCalls
  simp only [List.mem_flatMap, mem_compRange]
  constructor
  · rintro ⟨n, hn, ori, -, hc⟩
    split_ifs at hc with h
    · simp only [List.mem_singleton] at hc
      subst hc
      exact ⟨hn, h.1, h.2, rfl⟩
    · simp at hc
  · rintro ⟨hn, h1, h2, hc⟩
    refine ⟨c.comp, hn, c.ori, mem_OrientationIter _, ?_⟩
    rw [if_pos ⟨h1, h2⟩]
    simp only [List.mem_singleton]
    exact hc

/-! ### Boundary dispatch with two `ConstDirichlet` policies -/

theorem replay_const {R : Type} (fld : Field R) (inflow wall : ConstDirichlet R)
    (geom : GeometryData R) (time : R) (field : Array4 R) (c : Invocation) :
    (DirichletOp.ofFieldOps fld inflow.operator wall.operator).replay geom time field c =
      Array4.set field (c.iv 0) (c.iv 1) (c.iv 2) (c.dcomp + c.comp)
        (constValue inflow wall c) := by
  cases c with
  | mk tag iv ori comp dcomp orig_comp =>
    cases tag <;> rfl

theorem foldl_replay_const_apply {R : Type} (fld : Field R) (inflow wall : ConstDirichlet R)
    (geom : GeometryData R) (time : R) (l : List Invocation) (field : Array4 R)
    (i j k m : Int) :
    l.foldl ((DirichletOp.ofFieldOps fld inflow.operator wall.operator).replay geom time)
        field i j k m =
      match lastHit l i j k m with
      | some c => constValue inflow wall c
      | none => field i j k m := by
  induction l using List.reverseRecOn with
  | nil => simp [lastHit]
  | append_singleton xs c ih =>
    rw [List.foldl_append, List.foldl_cons, List.foldl_nil, replay_const]
    unfold lastHit at ih ⊢
    rw [List.reverse_append, List.reverse_singleton, List.singleton_append, List.find?_cons]
    by_cases h : Invocation.hits i j k m c = true
    · rw [h]
      simp only [Invocation.hits, decide_eq_true_eq] at h
      simp [Array4.set, h]
    · have h' : Invocation.hits i j k m c = false := by simpa using h
      rw [h']
      simp only [Invocation.hits, decide_eq_false_iff_not] at h'
      simp only [Array4.set, if_neg h']
      exact ih

/-- The field after `DirichletOp<ConstDirichlet, ConstDirichlet>::operator()`: an entry
holds the value of the last call that wrote it, and its old value if no call did. -/
theorem operator_const_apply {R : Type} (fld : Field R) (inflow wall : ConstDirichlet R)
    (iv : IntVect) (field : Array4 R) (dcomp numcomp : Int) (geom : GeometryData R)
    (time : R) (bcr : Int → BCRec) (bcomp orig_comp : Int) (i j k m : Int) :
    (DirichletOp.ofFieldOps fld inflow.operator wall.operator).operator iv field dcomp numcomp
        geom time bcr bcomp orig_comp i j k m =
      match lastHit (dispatchCalls fld.bc_type iv dcomp numcomp geom bcr bcomp orig_comp)
          i j k m with
      | some c => constValue inflow wall c
      | none => field i j k m := by
  rw [operator_eq_replay, foldl_replay_const_apply]
  rfl

theorem ofField_eq_ofFieldOps {R : Type} (fld : Field R) :
    DirichletOp.ofField fld =
      DirichletOp.ofFieldOps fld (ConstDirichlet.ofField fld).operator
        (ConstDirichlet.ofField fld).operator := rfl

theorem lastHit_mem {l : List Invocation} {i j k m : Int} {c : Invocation}
    (h : lastHit l i j k m = some c) : c ∈ l ∧ Invocation.hits i j k m c = true := by
  unfold lastHit at h
  exact ⟨List.mem_reverse.mp (List.mem_of_find?_eq_some h), List.find?_some h⟩

theorem lastHit_none {l : List Invocation} {i j k m : Int}
    (h : lastHit l i j k m = none) : ∀ c ∈ l, Invocation.hits i j k m c = false := by
  unfold lastHit at h
  intro c hc
  have := List.find?_eq_none.mp h c (List.mem_reverse.mpr hc)
  simpa using this

/-! ### Claims on the boundary dispatch -/

/-- C1 (category routing): for a component `n` with `0 ≤ n < numcomp` and a face `ori`
that is `ext_dir` in `bcr[bcomp + n]`, whose strip contains `iv` and whose category is
`mass_inflow`, `DirichletOp::operator()` calls the inflow policy with
`(iv, ori, n, dcomp, orig_comp)` and makes no wall-policy call for that `(n, ori)`. -/
theorem C1_category_routing {R : Type} (bc_type : Orientation → BC) (iv : IntVect)
    (dcomp numcomp : Int) (geom : GeometryData R) (time : R) (bcr : Int → BCRec)
    (bcomp orig_comp : Int) (n : Int) (ori : Orientation)
    (hn0 : 0 ≤ n) (hn : n < numcomp)
    (ha : (bcr (bcomp + n)).onFace ori = BCType.ext_dir)
    (hb : isBndry geom.Domain iv ori = true)
    (hc : bc_type ori = BC.mass_inflow) :
    ({ tag := PolicyTag.inflow, iv := iv, ori := ori, comp := n, dcomp := dcomp,
       orig_comp := orig_comp } : Invocation) ∈
        DirichletOp.trace bc_type iv dcomp numcomp geom time bcr bcomp orig_comp ∧
      ∀ c ∈ DirichletOp.trace bc_type iv dcomp numcomp geom time bcr bcomp orig_comp,
        c.tag = PolicyTag.wall → ¬ (c.comp = n ∧ c.ori = ori) := by
  rw [trace_eq_dispatchCalls]
  constructor
  · rw [mem_dispatchCalls]
    refine ⟨⟨hn0, hn⟩, ha, hb, ?_⟩
    simp [dispatchTag, hc]
  · intro c hcm htag hco
    rw [mem_dispatchCalls] at hcm
    obtain ⟨-, -, -, hceq⟩ := hcm
    rw [hceq] at htag
    rw [hco.2] at htag
    simp [dispatchTag, hc] at htag

/-- The statement C1 at the low-x face of `exFieldInflow` and the cell `(-1, 0, 0)`. -/
theorem C1_category_routing_witness :
    ({ tag := PolicyTag.inflow, iv := exLowX, ori := 0, comp := 0, dcomp := 0,
       orig_comp := 0 } : Invocation) ∈
        DirichletOp.trace exFieldInflow.bc_type exLowX 0 1 exGeom 0 exBcrAllDir 0 0 ∧
      ∀ c ∈ DirichletOp.trace exFieldInflow.bc_type exLowX 0 1 exGeom 0 exBcrAllDir 0 0,
        c.tag = PolicyTag.wall → ¬ (c.comp = 0 ∧ c.ori = 0) :=
  C1_category_routing exFieldInflow.bc_type exLowX 0 1 exGeom 0 exBcrAllDir 0 0 0 0
    (by decide) (by decide) (by decide) (by decide) (by decide)

/-- C2 (permissive wall default): for a component `n` with `0 ≤ n < numcomp` and a face
`ori` that is `ext_dir` in `bcr[bcomp + n]` and whose strip contains `iv`, if the category
of `ori` is anything but `mass_inflow`, `DirichletOp::operator()` calls the wall policy
with `(iv, ori, n, dcomp, orig_comp)` and makes no inflow-policy call for that `(n, ori)`;
the call is a total function of its arguments, so there is no error outcome. -/
theorem C2_permissive_wall_default {R : Type} (bc_type : Orientation → BC) (iv : IntVect)
    (dcomp numcomp : Int) (geom : GeometryData R) (time : R) (bcr : Int → BCRec)
    (bcomp orig_comp : Int) (n : Int) (ori : Orientation)
    (hn0 : 0 ≤ n) (hn : n < numcomp)
    (ha : (bcr (bcomp + n)).onFace ori = BCType.ext_dir)
    (hb : isBndry geom.Domain iv ori = true)
    (hc : bc_type ori ≠ BC.mass_inflow) :
    ({ tag := PolicyTag.wall, iv := iv, ori := ori, comp := n, dcomp := dcomp,
       orig_comp := orig_comp } : Invocation) ∈
        DirichletOp.trace bc_type iv dcomp numcomp geom time bcr bcomp orig_comp ∧
      ∀ c ∈ DirichletOp.trace bc_type iv dcomp numcomp geom time bcr bcomp orig_comp,
        c.tag = PolicyTag.inflow → ¬ (c.comp = n ∧ c.ori = ori) := by
  rw [trace_eq_dispatchCalls]
  constructor
  · rw [mem_dispatchCalls]
    refine ⟨⟨hn0, hn⟩, ha, hb, ?_⟩
    simp [dispatchTag, hc]
  · intro c hcm htag hco
    rw [mem_dispatchCalls] at hcm
    obtain ⟨-, -, -, hceq⟩ := hcm
    rw [hceq] at htag
    rw [hco.2] at htag
    simp [dispatchTag, hc] at htag

/-- The statement C2 at the low-x face of `exFieldNoOp` (category `no_op`) and the cell
`(-1, 0, 0)`. -/
theorem C2_permissive_wall_default_witness :
    ({ tag := PolicyTag.wall, iv := exLowX, ori := 0, comp := 0, dcomp := 0,
       orig_comp := 0 } : Invocation) ∈
        DirichletOp.trace exFieldNoOp.bc_type exLowX 0 1 exGeom 0 exBcrAllDir 0 0 ∧
      ∀ c ∈ DirichletOp.trace exFieldNoOp.bc_type exLowX 0 1 exGeom 0 exBcrAllDir 0 0,
        c.tag = PolicyTag.inflow → ¬ (c.comp = 0 ∧ c.ori = 0) :=
  C2_permissive_wall_default exFieldNoOp.bc_type exLowX 0 1 exGeom 0 exBcrAllDir 0 0 0 0
    (by decide) (by decide) (by decide) (by decide) (by decide)

theorem isBndry_false_of_inside (domain_box : Box) (iv : IntVect)
    (hin : ∀ d, domain_box.smallEnd d ≤ iv d ∧ iv d ≤ domain_box.bigEnd d)
    (ori : Orientation) : isBndry domain_box iv ori = false := by
  unfold isBndry
  have h := hin ori.coordDir
  split_ifs
  · simp only [decide_eq_false_iff_not]; omega
  · simp only [decide_eq_false_iff_not]; omega

theorem dispatchCalls_eq_nil {R : Type} (bc_type : Orientation → BC) (iv : IntVect)
    (dcomp numcomp : Int) (geom : GeometryData R) (bcr : Int → BCRec)
    (bcomp orig_comp : Int)
    (h : ∀ n ori, 0 ≤ n → n < numcomp → (bcr (bcomp + n)).onFace ori = BCType.ext_dir →
      isBndry geom.Domain iv ori = false) :
    dispatchCalls bc_type iv dcomp numcomp geom bcr bcomp orig_comp = [] := by
  rw [List.eq_nil_iff_forall_not_mem]
  intro c hc
  rw [mem_dispatchCalls] at hc
  obtain ⟨⟨h0, h1⟩, h2, h3, -⟩ := hc
  rw [h c.comp c.ori h0 h1 h2] at h3
  exact Bool.noConfusion h3

/-- The low-x face of `exFieldWall` is `ext_dir`, has category `wall` and boundary value
`10` for component 0, and the cell `(-1, -1, 0)` is below the low-x end of the domain, yet
after `DirichletOp<ConstDirichlet, ConstDirichlet>::operator()` with `numcomp = 1`,
`dcomp = bcomp = orig_comp = 0` its component 0 is `20`, the value of the low-y face. -/
theorem C3_corner_counterexample :
    exBCRecAllDir.lo 0 = BCType.ext_dir ∧ exFieldWall.bc_type 0 = BC.wall ∧
      exFieldWall.bc_values_device 0 0 = 10 ∧ exCorner 0 < exGeom.Domain.smallEnd 0 ∧
      (DirichletOp.ofField exFieldWall).operator exCorner exZero 0 1 exGeom 0 exBcrAllDir 0 0
        (exCorner 0) (exCorner 1) (exCorner 2) 0 = 20 ∧
      (DirichletOp.ofField exFieldWall).operator exCorner exZero 0 1 exGeom 0 exBcrAllDir 0 0
        (exCorner 0) (exCorner 1) (exCorner 2) 0 ≠ 10 := by
  have hval : (DirichletOp.ofField exFieldWall).operator exCorner exZero 0 1 exGeom 0
      exBcrAllDir 0 0 (exCorner 0) (exCorner 1) (exCorner 2) 0 = 20 := by
    rw [ofField_eq_ofFieldOps, operator_const_apply]
    have h : lastHit (dispatchCalls exFieldWall.bc_type exCorner 0 1 exGeom exBcrAllDir 0 0)
        (exCorner 0) (exCorner 1) (exCorner 2) 0 =
        some { tag := PolicyTag.wall, iv := exCorner, ori := 1, comp := 0, dcomp := 0,
               orig_comp := 0 } := by decide
    rw [h]
    simp [constValue, ConstDirichlet.ofField, exFieldWall]
  refine ⟨rfl, rfl, by simp [exFieldWall], by decide, hval, ?_⟩
  rw [hval]
  norm_num

/-- C3 (constant-Dirichlet value, amended): the low-x face is `ext_dir` for component 0,
has category `wall` and boundary value `v` (the spec's `10.0`) for component 0; after
`DirichletOp<ConstDirichlet, ConstDirichlet>::operator()` with `numcomp = 1`,
`dcomp = bcomp = orig_comp = 0` on a cell below the low-x end of the domain, component 0 of
the cell is `v`, provided every other face that is `ext_dir` for component 0 and whose strip
contains the cell also has boundary value `v` (in particular when there is no such face). -/
theorem C3_const_dirichlet_value {R : Type} (fld : Field R) (v : R) (iv : IntVect)
    (field : Array4 R) (geom : GeometryData R) (time : R) (bcr : Int → BCRec)
    (hdir : (bcr 0).lo 0 = BCType.ext_dir)
    (_hcat : fld.bc_type 0 = BC.wall)
    (hval : fld.bc_values_device 0 0 = v)
    (hiv : iv 0 < geom.Domain.smallEnd 0)
    (hothers : ∀ ori : Orientation, ori ≠ 0 → (bcr 0).onFace ori = BCType.ext_dir →
      isBndry geom.Domain iv ori = true → fld.bc_values_device ori 0 = v) :
    (DirichletOp.ofField fld).operator iv field 0 1 geom time bcr 0 0
      (iv 0) (iv 1) (iv 2) 0 = v := by
  rw [ofField_eq_ofFieldOps, operator_const_apply]
  have hall : ∀ c ∈ dispatchCalls fld.bc_type iv 0 1 geom bcr 0 0,
      constValue (ConstDirichlet.ofField fld) (ConstDirichlet.ofField fld) c = v := by
    intro c hc
    rw [mem_dispatchCalls] at hc
    obtain ⟨⟨h0, h1⟩, h2, h3, hceq⟩ := hc
    have hcomp : c.comp = 0 := by omega
    rw [hcomp] at h2
    have hv : fld.bc_values_device c.ori 0 = v := by
      by_cases ho : c.ori = 0
      · rw [ho]; exact hval
      · exact hothers c.ori ho (by simpa using h2) h3
    have horig : c.orig_comp = 0 := by rw [hceq]
    cases htag : c.tag <;>
      simp [constValue, htag, ConstDirichlet.ofField, hcomp, horig, hv]
  cases hl : lastHit (dispatchCalls fld.bc_type iv 0 1 geom bcr 0 0) (iv 0) (iv 1) (iv 2) 0 with
  | some c => exact hall c (lastHit_mem hl).1
  | none =>
    exfalso
    have hmem : (Invocation.mk (dispatchTag (fld.bc_type 0)) iv 0 0 0 0) ∈
        dispatchCalls fld.bc_type iv 0 1 geom bcr 0 0 := by
      rw [mem_dispatchCalls]
      refine ⟨⟨le_refl _, Int.zero_lt_one⟩, ?_, ?_, rfl⟩
      · simpa [BCRec.onFace, Orientation.isLow, Orientation.coordDir] using hdir
      · simpa [isBndry, Orientation.isLow, Orientation.coordDir] using hiv
    have := lastHit_none hl _ hmem
    simp [Invocation.hits] at this

/-- The amended C3 at the cell `(-1, 0, 0)` of `exFieldWall` with only the low-x face
`ext_dir`: component 0 becomes `10`. -/
theorem C3_const_dirichlet_value_witness :
    (DirichletOp.ofField exFieldWall).operator exLowX exZero 0 1 exGeom 0
      (fun _ => exBCRecLowX) 0 0 (exLowX 0) (exLowX 1) (exLowX 2) 0 = 10 :=
  C3_const_dirichlet_value exFieldWall 10 exLowX exZero exGeom 0 (fun _ => exBCRecLowX)
    (by decide) (by decide) (by simp [exFieldWall]) (by decide)
    (by
      intro ori hne hdir
      exfalso
      revert hne hdir
      fin_cases ori <;> decide)

/-- C4 (interior cells untouched): for every inflow and wall policy, every record table
and every category table, if `smallEnd(d) ≤ iv[d] ≤ bigEnd(d)` on every axis `d` then
`DirichletOp::operator()` returns the state it was given (every component of every cell
unchanged) and calls neither policy. -/
theorem C4_interior_untouched {σ R : Type} (self : DirichletOp σ R) (iv : IntVect)
    (field : σ) (dcomp numcomp : Int) (geom : GeometryData R) (time : R)
    (bcr : Int → BCRec) (bcomp orig_comp : Int)
    (hin : ∀ d, geom.Domain.smallEnd d ≤ iv d ∧ iv d ≤ geom.Domain.bigEnd d) :
    self.operator iv field dcomp numcomp geom time bcr bcomp orig_comp = field ∧
      DirichletOp.trace self.m_bc_type iv dcomp numcomp geom time bcr bcomp orig_comp = [] := by
  have hnil : dispatchCalls self.m_bc_type iv dcomp numcomp geom bcr bcomp orig_comp = [] :=
    dispatchCalls_eq_nil _ _ _ _ _ _ _ _
      (fun _ ori _ _ _ => isBndry_false_of_inside geom.Domain iv hin ori)
  constructor
  · rw [operator_eq_replay, hnil]
    rfl
  · rw [trace_eq_dispatchCalls, hnil]

/-- The statement C4 at the interior cell `(1, 1, 1)` of `[0, 3]³` with every face
`ext_dir`. -/
theorem C4_interior_untouched_witness :
    (DirichletOp.ofField exFieldWall).operator exInterior exZero 0 1 exGeom 0
        exBcrAllDir 0 0 = exZero ∧
      DirichletOp.trace (DirichletOp.ofField exFieldWall).m_bc_type exInterior 0 1 exGeom 0
        exBcrAllDir 0 0 = [] :=
  C4_interior_untouched (DirichletOp.ofField exFieldWall) exInterior exZero 0 1 exGeom 0
    exBcrAllDir 0 0 (by decide)

/-- Every face of `exFieldNoOp` has category `no_op` and the cell `(-1, 0, 0)` is outside
the domain, yet `DirichletOp<ConstDirichlet, ConstDirichlet>::operator()` changes
component 0 of that cell from `0` to `10`. -/
theorem C5_noop_category_counterexample :
    (∀ ori, exFieldNoOp.bc_type ori = BC.no_op) ∧ exLowX 0 < exGeom.Domain.smallEnd 0 ∧
      exZero (-1) 0 0 0 = 0 ∧
      (DirichletOp.ofField exFieldNoOp).operator exLowX exZero 0 1 exGeom 0 exBcrAllDir 0 0
        (-1) 0 0 0 = 10 ∧
      (DirichletOp.ofField exFieldNoOp).operator exLowX exZero 0 1 exGeom 0 exBcrAllDir 0 0 ≠
        exZero := by
  have hval : (DirichletOp.ofField exFieldNoOp).operator exLowX exZero 0 1 exGeom 0
      exBcrAllDir 0 0 (-1) 0 0 0 = 10 := by
    rw [ofField_eq_ofFieldOps, operator_const_apply]
    have h : lastHit (dispatchCalls exFieldNoOp.bc_type exLowX 0 1 exGeom exBcrAllDir 0 0)
        (-1) 0 0 0 =
        some { tag := PolicyTag.wall, iv := exLowX, ori := 0, comp := 0, dcomp := 0,
               orig_comp := 0 } := by decide
    rw [h]
    simp [constValue, ConstDirichlet.ofField, exFieldNoOp]
  refine ⟨fun _ => rfl, by decide, rfl, hval, ?_⟩
  intro heq
  have h2 := congrFun (congrFun (congrFun (congrFun heq (-1)) 0) 0) 0
  rw [hval] at h2
  simp [exZero] at h2

/-- C5 (no-op category, amended): when every face has the `no_op` category,
`DirichletOp::operator()` never calls the inflow policy (every call it makes is a wall
call); it returns the state unchanged if the wall policy writes nothing, and also, at any
cell, if no face that is `ext_dir` for a requested component has the cell on its strip.
Otherwise the wall policy is applied, see `C2_permissive_wall_default`. -/
theorem C5_noop_category {σ R : Type} (self : DirichletOp σ R) (iv : IntVect)
    (field : σ) (dcomp numcomp : Int) (geom : GeometryData R) (time : R)
    (bcr : Int → BCRec) (bcomp orig_comp : Int)
    (hno : ∀ ori, self.m_bc_type ori = BC.no_op) :
    (∀ c ∈ DirichletOp.trace self.m_bc_type iv dcomp numcomp geom time bcr bcomp orig_comp,
        c.tag = PolicyTag.wall) ∧
      ((∀ iv' s g t ori' n' d' o', self.m_wall_op iv' s g t ori' n' d' o' = s) →
        self.operator iv field dcomp numcomp geom time bcr bcomp orig_comp = field) ∧
      ((∀ n ori, 0 ≤ n → n < numcomp → (bcr (bcomp + n)).onFace ori = BCType.ext_dir →
          isBndry geom.Domain iv ori = false) →
        self.operator iv field dcomp numcomp geom time bcr bcomp orig_comp = field) := by
  have htag : ∀ c ∈ dispatchCalls self.m_bc_type iv dcomp numcomp geom bcr bcomp orig_comp,
      c.tag = PolicyTag.wall := by
    intro c hc
    rw [mem_dispatchCalls] at hc
    obtain ⟨-, -, -, hceq⟩ := hc
    rw [hceq]
    simp [dispatchTag, hno]
  refine ⟨?_, ?_, ?_⟩
  · rw [trace_eq_dispatchCalls]
    exact htag
  · intro hwall
    rw [operator_eq_replay]
    generalize dispatchCalls self.m_bc_type iv dcomp numcomp geom bcr bcomp orig_comp = l
      at htag
    induction l generalizing field with
    | nil => rfl
    | cons c cs ih =>
      rw [List.foldl_cons]
      have hc : self.replay geom time field c = field := by
        unfold DirichletOp.replay
        rw [htag c (List.mem_cons_self _ _)]
        exact hwall _ _ _ _ _ _ _ _
      rw [hc]
      exact ih field (fun c' hc' => htag c' (List.mem_cons_of_mem _ hc'))
  · intro hnone
    rw [operator_eq_replay, dispatchCalls_eq_nil _ _ _ _ _ _ _ _ hnone]
    rfl

/-- The amended C5 for the dispatch over an all-`no_op` category table with the
`FieldBCNoOp` member `set_inflow` as both policies, at the cell `(-1, 0, 0)`. -/
theorem C5_noop_category_witness :
    (∀ c ∈ DirichletOp.trace exFieldNoOp.bc_type exLowX 0 1 exGeom 0 exBcrAllDir 0 0,
        c.tag = PolicyTag.wall) ∧
      (DirichletOp.ofFieldOps exFieldNoOp (FieldBCNoOp.set_inflow {})
        (FieldBCNoOp.set_inflow {})).operator exLowX exZero 0 1 exGeom 0 exBcrAllDir 0 0 =
        exZero :=
  have h := C5_noop_category
    (DirichletOp.ofFieldOps exFieldNoOp (FieldBCNoOp.set_inflow {})
      (FieldBCNoOp.set_inflow {}))
    exLowX exZero 0 1 exGeom 0 exBcrAllDir 0 0 (fun _ => rfl)
  ⟨h.1, h.2.1 (fun _ _ _ _ _ _ _ _ => rfl)⟩

/-- C6 (idempotence of boundary dispatch): for `DirichletOp<ConstDirichlet,
ConstDirichlet>`, built from a field (as `FieldBCDirichlet` does) or from any two
`ConstDirichlet` policies, and for every cell, component range, record table, category
table and boundary-value table, applying `operator()` twice with the same arguments gives
exactly the field that applying it once gives. -/
theorem C6_dispatch_idempotent {R : Type} (fld : Field R) (inflow wall : ConstDirichlet R)
    (iv : IntVect) (field : Array4 R) (dcomp numcomp : Int) (geom : GeometryData R)
    (time : R) (bcr : Int → BCRec) (bcomp orig_comp : Int) :
    (DirichletOp.ofFieldOps fld inflow.operator wall.operator).operator iv
        ((DirichletOp.ofFieldOps fld inflow.operator wall.operator).operator iv field dcomp
          numcomp geom time bcr bcomp orig_comp)
        dcomp numcomp geom time bcr bcomp orig_comp =
      (DirichletOp.ofFieldOps fld inflow.operator wall.operator).operator iv field dcomp
        numcomp geom time bcr bcomp orig_comp ∧
    (FieldBCDirichlet.mk fld).create.operator iv
        ((FieldBCDirichlet.mk fld).create.operator iv field dcomp numcomp geom time bcr bcomp
          orig_comp)
        dcomp numcomp geom time bcr bcomp orig_comp =
      (FieldBCDirichlet.mk fld).create.operator iv field dcomp numcomp geom time bcr bcomp
        orig_comp := by
  have key : ∀ a b : ConstDirichlet R,
      (DirichletOp.ofFieldOps fld a.operator b.operator).operator iv
        ((DirichletOp.ofFieldOps fld a.operator b.operator).operator iv field dcomp
          numcomp geom time bcr bcomp orig_comp)
        dcomp numcomp geom time bcr bcomp orig_comp =
      (DirichletOp.ofFieldOps fld a.operator b.operator).operator iv field dcomp
        numcomp geom time bcr bcomp orig_comp := by
    intro a b
    funext i j k m
    rw [operator_const_apply, operator_const_apply]
    cases lastHit (dispatchCalls fld.bc_type iv dcomp numcomp geom bcr bcomp orig_comp)
      i j k m <;> rfl
  exact ⟨key inflow wall, key (ConstDirichlet.ofField fld) (ConstDirichlet.ofField fld)⟩

/-! ### Boxes and `ParallelFor` -/

theorem mem_intRange {lo hi x : Int} : x ∈ intRange lo hi ↔ lo ≤ x ∧ x ≤ hi := by
  unfold intRange
  simp only [List.mem_map, List.mem_range]
  constructor
  · rintro ⟨t, ht, rfl⟩
    omega
  · rintro ⟨h0, h1⟩
    exact ⟨(x - lo).toNat, by omega, by omega⟩

theorem mem_cells {bx : Box} {i j k : Int} : (i, j, k) ∈ bx.cells ↔ bx.contains i j k := by
  unfold Box.cells Box.contains
  simp only [List.mem_flatMap, List.mem_map, mem_intRange, Prod.mk.injEq]
  constructor
  · rintro ⟨k', hk, j', hj, i', hi, rfl, rfl, rfl⟩
    exact ⟨hi, hj, hk⟩
  · rintro ⟨hi, hj, hk⟩
    exact ⟨k, hk, j, hj, i, hi, rfl, rfl, rfl⟩

theorem isEmpty_eq_false_of_contains {bx : Box} {i j k : Int} (h : bx.contains i j k) :
    bx.isEmpty = false := by
  unfold Box.isEmpty
  simp only [decide_eq_false_iff_not, not_exists, not_lt]
  obtain ⟨h0, h1, h2⟩ := h
  intro d
  fin_cases d
  · exact le_trans h0.1 h0.2
  · exact le_trans h1.1 h1.2
  · exact le_trans h2.1 h2.2

/-- If the kernel run at a cell only changes entries of that cell, `ParallelFor` leaves
the entries of every cell outside the box unchanged. -/
theorem foldl_cells_frame {R : Type} (K : Int → Int → Int → Array4 R → Array4 R)
    (hK : ∀ i j k g i' j' k' m, ¬ (i' = i ∧ j' = j ∧ k' = k) →
      K i j k g i' j' k' m = g i' j' k' m)
    (l : List (Int × Int × Int)) (g : Array4 R) (i' j' k' m : Int)
    (hnot : (i', j', k') ∉ l) :
    l.foldl (fun s c => K c.1 c.2.1 c.2.2 s) g i' j' k' m = g i' j' k' m := by
  induction l using List.reverseRecOn with
  | nil => rfl
  | append_singleton xs q ih =>
    rw [List.foldl_append, List.foldl_cons, List.foldl_nil]
    have hq : ¬ (i' = q.1 ∧ j' = q.2.1 ∧ k' = q.2.2) := by
      rintro ⟨h1, h2, h3⟩
      apply hnot
      rw [List.mem_append]
      right
      rw [List.mem_singleton, h1, h2, h3]
    rw [hK _ _ _ _ _ _ _ _ hq]
    exact ih (fun hmem => hnot (List.mem_append_left _ hmem))

/-- If the kernel run at a cell only changes entries of that cell and stores `V` in the
entry `m` of its cell whatever the array held, then after `ParallelFor` the entry `m` of
every cell of the box holds `V`. -/
theorem foldl_cells_written {R : Type} (K : Int → Int → Int → Array4 R → Array4 R)
    (hK : ∀ i j k g i' j' k' m, ¬ (i' = i ∧ j' = j ∧ k' = k) →
      K i j k g i' j' k' m = g i' j' k' m)
    (V : Int → Int → Int → R) (m : Int)
    (hV : ∀ i j k g, K i j k g i j k m = V i j k)
    (l : List (Int × Int × Int)) (g : Array4 R) (i j k : Int) (hmem : (i, j, k) ∈ l) :
    l.foldl (fun s c => K c.1 c.2.1 c.2.2 s) g i j k m = V i j k := by
  induction l using List.reverseRecOn with
  | nil => simp at hmem
  | append_singleton xs q ih =>
    rw [List.foldl_append, List.foldl_cons, List.foldl_nil]
    by_cases hq : i = q.1 ∧ j = q.2.1 ∧ k = q.2.2
    · obtain ⟨h1, h2, h3⟩ := hq
      subst h1 h2 h3
      exact hV _ _ _ _
    · rw [hK _ _ _ _ _ _ _ _ hq]
      apply ih
      rw [List.mem_append, List.mem_singleton] at hmem
      rcases hmem with h | h
      · exact h
      · exfalso
        apply hq
        rw [← h]
        exact ⟨rfl, rfl, rfl⟩

/-! ### The gradient kernel -/

theorem Gradient.compBody_other_cell {R : Type} [Add R] [Mul R] (S : Stencil R)
    (idx : Fin 3 → R) (phi_arr : Array4 R) (i j k : Int) (g : Array4 R) (icomp : Int)
    (i' j' k' m : Int) (h : ¬ (i' = i ∧ j' = j ∧ k' = k)) :
    Gradient.compBody S idx phi_arr i j k g icomp i' j' k' m = g i' j' k' m := by
  have h' : ∀ x : Int, ¬ (i' = i ∧ j' = j ∧ k' = k ∧ m = x) := fun x hx =>
    h ⟨hx.1, hx.2.1, hx.2.2.1⟩
  simp only [Gradient.compBody, Array4.set, if_neg (h' _)]

theorem Gradient.compBody_other_comp {R : Type} [Add R] [Mul R] (S : Stencil R)
    (idx : Fin 3 → R) (phi_arr : Array4 R) (i j k : Int) (g : Array4 R) (icomp : Int)
    (i' j' k' m : Int) (h : m < icomp * 3 ∨ icomp * 3 + 2 < m) :
    Gradient.compBody S idx phi_arr i j k g icomp i' j' k' m = g i' j' k' m := by
  have h0 : ¬ (i' = i ∧ j' = j ∧ k' = k ∧ m = icomp * 3 + 0) := fun hx => by omega
  have h1 : ¬ (i' = i ∧ j' = j ∧ k' = k ∧ m = icomp * 3 + 1) := fun hx => by omega
  have h2 : ¬ (i' = i ∧ j' = j ∧ k' = k ∧ m = icomp * 3 + 2) := fun hx => by omega
  simp only [Gradient.compBody, Array4.set, if_neg h0, if_neg h1, if_neg h2]

theorem Gradient.compBody_written {R : Type} [Add R] [Mul R] (S : Stencil R)
    (idx : Fin 3 → R) (phi_arr : Array4 R) (i j k : Int) (g : Array4 R) (icomp : Int)
    (d : Fin 3) :
    Gradient.compBody S idx phi_arr i j k g icomp i j k (icomp * 3 + (d.val : Int)) =
      Gradient.entry S idx phi_arr i j k icomp d := by
  fin_cases d
  · have h1 : ¬ (icomp * 3 + 0 = icomp * 3 + 1) := by omega
    have h2 : ¬ (icomp * 3 + 0 = icomp * 3 + 2) := by omega
    simp [Gradient.compBody, Array4.set, Gradient.entry, Array4.shifted, Stencil.c, h1, h2]
    rfl
  · have h2 : ¬ (icomp * 3 + 1 = icomp * 3 + 2) := by omega
    simp [Gradient.compBody, Array4.set, Gradient.entry, Array4.shifted, Stencil.c, h2]
    rfl
  · simp [Gradient.compBody, Array4.set, Gradient.entry, Array4.shifted, Stencil.c]
    rfl

theorem Gradient.foldl_compBody_other_cell {R : Type} [Add R] [Mul R] (S : Stencil R)
    (idx : Fin 3 → R) (phi_arr : Array4 R) (i j k : Int) (l : List Int) (g : Array4 R)
    (i' j' k' m : Int) (h : ¬ (i' = i ∧ j' = j ∧ k' = k)) :
    l.foldl (Gradient.compBody S idx phi_arr i j k) g i' j' k' m = g i' j' k' m := by
  induction l using List.reverseRecOn with
  | nil => rfl
  | append_singleton xs x ih =>
    rw [List.foldl_append, List.foldl_cons, List.foldl_nil,
      Gradient.compBody_other_cell _ _ _ _ _ _ _ _ _ _ _ _ h]
    exact ih

theorem Gradient.foldl_compBody_other_comp {R : Type} [Add R] [Mul R] (S : Stencil R)
    (idx : Fin 3 → R) (phi_arr : Array4 R) (i j k : Int) (l : List Int) (g : Array4 R)
    (i' j' k' m : Int) (h : ∀ c ∈ l, m < c * 3 ∨ c * 3 + 2 < m) :
    l.foldl (Gradient.compBody S idx phi_arr i j k) g i' j' k' m = g i' j' k' m := by
  induction l using List.reverseRecOn with
  | nil => rfl
  | append_singleton xs x ih =>
    rw [List.foldl_append, List.foldl_cons, List.foldl_nil,
      Gradient.compBody_other_comp _ _ _ _ _ _ _ _ _ _ _ _
        (h x (List.mem_append_right _ (List.mem_singleton_self x)))]
    exact ih (fun c hc => h c (List.mem_append_left _ hc))

theorem Gradient.foldl_compBody_written {R : Type} [Add R] [Mul R] (S : Stencil R)
    (idx : Fin 3 → R) (phi_arr : Array4 R) (i j k : Int) (l : List Int) (g : Array4 R)
    (c : Int) (d : Fin 3) (hc : c ∈ l) :
    l.foldl (Gradient.compBody S idx phi_arr i j k) g i j k (c * 3 + (d.val : Int)) =
      Gradient.entry S idx phi_arr i j k c d := by
  induction l using List.reverseRecOn with
  | nil => simp at hc
  | append_singleton xs x ih =>
    rw [List.foldl_append, List.foldl_cons, List.foldl_nil]
    by_cases hx : x = c
    · subst hx
      exact Gradient.compBody_written _ _ _ _ _ _ _ _ _
    · have hd := d.isLt
      rw [Gradient.compBody_other_comp _ _ _ _ _ _ _ _ _ _ _ _ (by omega)]
      apply ih
      rw [List.mem_append, List.mem_singleton] at hc
      rcases hc with h | h
      · exact h
      · exact absurd h.symm hx

theorem Gradient.kernel_other_cell {R : Type} [Add R] [Mul R] (S : Stencil R)
    (idx : Fin 3 → R) (ncomp : Int) (phi_arr : Array4 R) (i j k : Int) (g : Array4 R)
    (i' j' k' m : Int) (h : ¬ (i' = i ∧ j' = j ∧ k' = k)) :
    Gradient.kernel S idx ncomp phi_arr i j k g i' j' k' m = g i' j' k' m :=
  Gradient.foldl_compBody_other_cell S idx phi_arr i j k _ g i' j' k' m h

theorem Gradient.kernel_other_comp {R : Type} [Add R] [Mul R] (S : Stencil R)
    (idx : Fin 3 → R) (ncomp : Int) (phi_arr : Array4 R) (i j k : Int) (g : Array4 R)
    (i' j' k' m : Int) (h : m < 0 ∨ 3 * ncomp ≤ m) :
    Gradient.kernel S idx ncomp phi_arr i j k g i' j' k' m = g i' j' k' m := by
  apply Gradient.foldl_compBody_other_comp
  intro c hc
  rw [mem_compRange] at hc
  omega

theorem Gradient.kernel_written {R : Type} [Add R] [Mul R] (S : Stencil R)
    (idx : Fin 3 → R) (ncomp : Int) (phi_arr : Array4 R) (i j k : Int) (g : Array4 R)
    (c : Int) (d : Fin 3) (h0 : 0 ≤ c) (h1 : c < ncomp) :
    Gradient.kernel S idx ncomp phi_arr i j k g i j k (c * 3 + (d.val : Int)) =
      Gradient.entry S idx phi_arr i j k c d :=
  Gradient.foldl_compBody_written S idx phi_arr i j k _ g c d (mem_compRange.mpr ⟨h0, h1⟩)

/-- The output of `Gradient::apply` at an entry it writes. -/
theorem Gradient.apply_written {R : Type} [Add R] [Mul R] (self : Gradient R)
    (S : Stencil R) (geom : Geometry R) (tilebox : Box) (i j k c : Int) (d : Fin 3)
    (hbox : (S.box tilebox geom).contains i j k) (h0 : 0 ≤ c)
    (h1 : c < self.m_phi.num_comp) :
    self.apply S geom tilebox i j k (c * 3 + (d.val : Int)) =
      Gradient.entry S geom.InvCellSizeArray self.m_phi.arr i j k c d := by
  unfold Gradient.apply
  simp only [isEmpty_eq_false_of_contains hbox, Bool.false_eq_true, if_false]
  unfold ParallelFor
  exact foldl_cells_written
    (Gradient.kernel S geom.InvCellSizeArray self.m_phi.num_comp self.m_phi.arr)
    (fun i j k g i' j' k' m h => Gradient.kernel_other_cell S _ _ _ i j k g i' j' k' m h)
    (fun i j k => Gradient.entry S geom.InvCellSizeArray self.m_phi.arr i j k c d)
    (c * 3 + (d.val : Int))
    (fun i j k g => Gradient.kernel_written S _ _ _ i j k g c d h0 h1)
    _ _ i j k (mem_cells.mpr hbox)

/-- The entries `Gradient::apply` does not write: every cell outside the effective box
and every component outside `0 .. 3 * ncomp - 1`. -/
theorem Gradient.apply_frame {R : Type} [Add R] [Mul R] (self : Gradient R)
    (S : Stencil R) (geom : Geometry R) (tilebox : Box) (i j k m : Int)
    (h : ¬ (S.box tilebox geom).contains i j k ∨ m < 0 ∨ 3 * self.m_phi.num_comp ≤ m) :
    self.apply S geom tilebox i j k m = self.m_gradphi.arr i j k m := by
  unfold Gradient.apply
  by_cases he : (S.box tilebox geom).isEmpty = true
  · simp only [he, if_true]
  · simp only [he, Bool.false_eq_true, if_false]
    unfold ParallelFor
    rcases h with h | h
    · exact foldl_cells_frame _
        (fun i j k g i' j' k' m h => Gradient.kernel_other_cell S _ _ _ i j k g i' j' k' m h)
        _ _ i j k m (fun hmem => h (mem_cells.mp hmem))
    · generalize (S.box tilebox geom).cells = l
      induction l using List.reverseRecOn with
      | nil => rfl
      | append_singleton xs q ih =>
        rw [List.foldl_append, List.foldl_cons, List.foldl_nil,
          Gradient.kernel_other_comp _ _ _ _ _ _ _ _ _ _ _ _ h]
        exact ih

/-! ### The Laplacian kernel -/

/-- The value `Laplacian::apply` stores in the output component of the cell `(i, j, k)`,
as the source computes it. -/
theorem Laplacian.lapBody_written {R : Type} [Add R] [Mul R] (S : Stencil R)
    (idx : Fin 3 → R) (phi : Array4 R) (i j k : Int) (g : Array4 R) (icomp : Int) :
    Laplacian.compBody S idx phi i j k g icomp i j k 0 =
      Laplacian.axisSum S phi i j k 0 * idx 0 * idx 0 +
        Laplacian.axisSum S phi i j k 1 * idx 1 * idx 1 +
        Laplacian.axisSum S phi i j k 2 * idx 2 * idx 2 := by
  simp [Laplacian.compBody, Array4.set, Laplacian.axisSum, Array4.shifted, Stencil.s]
  rfl

theorem Laplacian.lapBody_other {R : Type} [Add R] [Mul R] (S : Stencil R)
    (idx : Fin 3 → R) (phi : Array4 R) (i j k : Int) (g : Array4 R) (icomp : Int)
    (i' j' k' m : Int) (h : ¬ (i' = i ∧ j' = j ∧ k' = k ∧ m = 0)) :
    Laplacian.compBody S idx phi i j k g icomp i' j' k' m = g i' j' k' m := by
  simp only [Laplacian.compBody, Array4.set, if_neg h]

theorem Laplacian.lapKernel_other {R : Type} [Add R] [Mul R] (S : Stencil R)
    (idx : Fin 3 → R) (ncomp : Int) (phi : Array4 R) (i j k : Int) (g : Array4 R)
    (i' j' k' m : Int) (h : ¬ (i' = i ∧ j' = j ∧ k' = k ∧ m = 0)) :
    Laplacian.kernel S idx ncomp phi i j k g i' j' k' m = g i' j' k' m := by
  unfold Laplacian.kernel
  generalize compRange ncomp = l
  induction l using List.reverseRecOn with
  | nil => rfl
  | append_singleton xs x ih =>
    rw [List.foldl_append, List.foldl_cons, List.foldl_nil,
      Laplacian.lapBody_other _ _ _ _ _ _ _ _ _ _ _ _ h]
    exact ih

theorem Laplacian.lapKernel_written {R : Type} [Add R] [Mul R] (S : Stencil R)
    (idx : Fin 3 → R) (ncomp : Int) (phi : Array4 R) (i j k : Int) (g : Array4 R)
    (hn : 1 ≤ ncomp) :
    Laplacian.kernel S idx ncomp phi i j k g i j k 0 =
      Laplacian.axisSum S phi i j k 0 * idx 0 * idx 0 +
        Laplacian.axisSum S phi i j k 1 * idx 1 * idx 1 +
        Laplacian.axisSum S phi i j k 2 * idx 2 * idx 2 := by
  unfold Laplacian.kernel
  have hne : compRange ncomp ≠ [] := by
    intro h
    have : (0 : Int) ∈ compRange ncomp := mem_compRange.mpr ⟨le_refl _, by omega⟩
    rw [h] at this
    simp at this
  generalize compRange ncomp = l at hne
  induction l using List.reverseRecOn with
  | nil => exact absurd rfl hne
  | append_singleton xs x _ =>
    rw [List.foldl_append, List.foldl_cons, List.foldl_nil]
    exact Laplacian.lapBody_written _ _ _ _ _ _ _ _

/-- The output of `Laplacian::apply` at a cell of the effective box, as the source
computes it, for an input with at least one component. -/
theorem Laplacian.lapApply_written {R : Type} [Add R] [Mul R] (self : Laplacian R)
    (S : Stencil R) (geom : Geometry R) (tilebox : Box) (i j k : Int)
    (hbox : (S.box tilebox geom).contains i j k) (hn : 1 ≤ self.m_phi.num_comp) :
    self.apply S geom tilebox i j k 0 =
      Laplacian.axisSum S self.m_phi.arr i j k 0 * geom.InvCellSizeArray 0 *
          geom.InvCellSizeArray 0 +
        Laplacian.axisSum S self.m_phi.arr i j k 1 * geom.InvCellSizeArray 1 *
          geom.InvCellSizeArray 1 +
        Laplacian.axisSum S self.m_phi.arr i j k 2 * geom.InvCellSizeArray 2 *
          geom.InvCellSizeArray 2 := by
  unfold Laplacian.apply
  simp only [isEmpty_eq_false_of_contains hbox, Bool.false_eq_true, if_false]
  unfold ParallelFor
  exact foldl_cells_written
    (Laplacian.kernel S geom.InvCellSizeArray self.m_phi.num_comp self.m_phi.arr)
    (fun i j k g i' j' k' m h => Laplacian.lapKernel_other S _ _ _ i j k g i' j' k' m
      (fun hx => h ⟨hx.1, hx.2.1, hx.2.2.1⟩))
    (fun i j k => Laplacian.axisSum S self.m_phi.arr i j k 0 * geom.InvCellSizeArray 0 *
          geom.InvCellSizeArray 0 +
        Laplacian.axisSum S self.m_phi.arr i j k 1 * geom.InvCellSizeArray 1 *
          geom.InvCellSizeArray 1 +
        Laplacian.axisSum S self.m_phi.arr i j k 2 * geom.InvCellSizeArray 2 *
          geom.InvCellSizeArray 2)
    0
    (fun i j k g => Laplacian.lapKernel_written S _ _ _ i j k g hn)
    _ _ i j k (mem_cells.mpr hbox)

/-! ### Claims on the gradient and the Laplacian -/

/-- C7 (gradient formula): for every cell `(i, j, k)` of the effective box, every input
component `c` with `0 ≤ c < phi.num_comp()` and every axis `d`, after `Gradient::apply`
the output component `c * 3 + d` of the cell is
`(c_d0 * phi(cell + e_d, c) + c_d1 * phi(cell, c) + c_d2 * phi(cell - e_d, c)) *
invCellSize[d]`; and the value is the same for any other input field and any other
previous output that agree with this one on those three input entries. -/
theorem C7_gradient_formula {R : Type} [Add R] [Mul R] (self : Gradient R) (S : Stencil R)
    (geom : Geometry R) (tilebox : Box) (i j k c : Int) (d : Fin 3)
    (hbox : (S.box tilebox geom).contains i j k) (h0 : 0 ≤ c)
    (h1 : c < self.m_phi.num_comp) :
    self.apply S geom tilebox i j k (c * 3 + (d.val : Int)) =
        (S.c d 0 * self.m_phi.arr.shifted d 1 i j k c + S.c d 1 * self.m_phi.arr i j k c +
          S.c d 2 * self.m_phi.arr.shifted d (-1) i j k c) * geom.InvCellSizeArray d ∧
      ∀ other : Gradient R, c < other.m_phi.num_comp →
        other.m_phi.arr.shifted d 1 i j k c = self.m_phi.arr.shifted d 1 i j k c →
        other.m_phi.arr i j k c = self.m_phi.arr i j k c →
        other.m_phi.arr.shifted d (-1) i j k c = self.m_phi.arr.shifted d (-1) i j k c →
        other.apply S geom tilebox i j k (c * 3 + (d.val : Int)) =
          self.apply S geom tilebox i j k (c * 3 + (d.val : Int)) := by
  constructor
  · rw [Gradient.apply_written self S geom tilebox i j k c d hbox h0 h1]
    rfl
  · intro other hc hp hz hm
    rw [Gradient.apply_written self S geom tilebox i j k c d hbox h0 h1,
      Gradient.apply_written other S geom tilebox i j k c d hbox h0 hc]
    unfold Gradient.entry
    rw [hp, hz, hm]

/-- The statement C7 for `exGradient` with the central stencil at the cell `(1, 1, 1)`,
component `1`, axis x: output component `3` is `(1/2 * 8 + 0 * 5 - 1/2 * 4) * 2 = 4`. -/
theorem C7_gradient_formula_witness :
    exGradient.apply exStencil exGeometry exDomain 1 1 1 (1 * 3 + ((0 : Fin 3).val : Int)) =
      (exStencil.c 0 0 * exGradient.m_phi.arr.shifted 0 1 1 1 1 1 +
        exStencil.c 0 1 * exGradient.m_phi.arr 1 1 1 1 +
        exStencil.c 0 2 * exGradient.m_phi.arr.shifted 0 (-1) 1 1 1 1) *
        exGeometry.InvCellSizeArray 0 :=
  (C7_gradient_formula exGradient exStencil exGeometry exDomain 1 1 1 1 0
    (by decide) (by decide) (by decide)).1

/-- C8 (Laplacian formula): for a constructed `Laplacian` and every cell of the effective
box, after `Laplacian::apply` the single output component is the sum over the axes `d` of
`(s_d0 * phi(cell + e_d, d) + s_d1 * phi(cell, d) + s_d2 * phi(cell - e_d, d)) *
invCellSize[d]^2`: input component `d` is differenced along axis `d`, and the value is the
same for any other input that agrees with this one on those nine entries. -/
theorem C8_laplacian_formula {R : Type} [Semiring R] (lphi phi : FieldPatch R)
    (self : Laplacian R) (hnew : Laplacian.new lphi phi = some self) (S : Stencil R)
    (geom : Geometry R) (tilebox : Box) (i j k : Int)
    (hbox : (S.box tilebox geom).contains i j k) :
    self.apply S geom tilebox i j k 0 =
        ∑ d : Fin 3,
          (S.s d 0 * phi.arr.shifted d 1 i j k (d.val : Int) +
            S.s d 1 * phi.arr i j k (d.val : Int) +
            S.s d 2 * phi.arr.shifted d (-1) i j k (d.val : Int)) *
            geom.InvCellSizeArray d ^ 2 ∧
      ∀ (phi' : FieldPatch R) (other : Laplacian R), Laplacian.new lphi phi' = some other →
        (∀ d : Fin 3,
          phi'.arr.shifted d 1 i j k (d.val : Int) = phi.arr.shifted d 1 i j k (d.val : Int) ∧
          phi'.arr i j k (d.val : Int) = phi.arr i j k (d.val : Int) ∧
          phi'.arr.shifted d (-1) i j k (d.val : Int) =
            phi.arr.shifted d (-1) i j k (d.val : Int)) →
        other.apply S geom tilebox i j k 0 = self.apply S geom tilebox i j k 0 := by
  have hcons : ∀ (q : FieldPatch R) (L : Laplacian R), Laplacian.new lphi q = some L →
      L.m_phi = q ∧ q.num_comp = 3 := by
    intro q L hL
    unfold Laplacian.new at hL
    split_ifs at hL with ha hb
    simp only [Option.some.injEq] at hL
    subst hL
    exact ⟨rfl, hb⟩
  have hval : ∀ (q : FieldPatch R) (L : Laplacian R), Laplacian.new lphi q = some L →
      L.apply S geom tilebox i j k 0 =
        ∑ d : Fin 3,
          (S.s d 0 * q.arr.shifted d 1 i j k (d.val : Int) +
            S.s d 1 * q.arr i j k (d.val : Int) +
            S.s d 2 * q.arr.shifted d (-1) i j k (d.val : Int)) *
            geom.InvCellSizeArray d ^ 2 := by
    intro q L hL
    obtain ⟨hq, hn⟩ := hcons q L hL
    rw [Laplacian.lapApply_written L S geom tilebox i j k hbox (by rw [hq, hn]; decide), hq,
      Fin.sum_univ_three]
    simp only [Laplacian.axisSum, pow_two, mul_assoc]
  refine ⟨hval phi self hnew, ?_⟩
  intro phi' other hother hagree
  rw [hval phi self hnew, hval phi' other hother]
  refine Finset.sum_congr rfl (fun d _ => ?_)
  obtain ⟨hp, hz, hm⟩ := hagree d
  rw [hp, hz, hm]

/-- The statement C8 for `exLaplacian` with the central stencil at the cell `(1, 1, 1)`. -/
theorem C8_laplacian_formula_witness :
    exLaplacian.apply exStencil exGeometry exDomain 1 1 1 0 =
      ∑ d : Fin 3,
        (exStencil.s d 0 * exPhi.arr.shifted d 1 1 1 1 (d.val : Int) +
          exStencil.s d 1 * exPhi.arr 1 1 1 (d.val : Int) +
          exStencil.s d 2 * exPhi.arr.shifted d (-1) 1 1 1 (d.val : Int)) *
          exGeometry.InvCellSizeArray d ^ 2 :=
  (C8_laplacian_formula exLapOut exPhi exLaplacian rfl exStencil exGeometry
    exDomain 1 1 1 (by decide)).1

/-! ### Exactness of the three-point stencils on polynomials of degree at most two -/

theorem eval_monomial_three {K : Type} [LinearOrderedField K] (s : Fin 3 →₀ ℕ) (a : K) (y : Fin 3 → K) :
    MvPolynomial.eval y (MvPolynomial.monomial s a) = a * (y 0 ^ s 0 * y 1 ^ s 1 * y 2 ^ s 2) := by
  rw [MvPolynomial.eval_monomial, Finsupp.prod_fintype _ _ (fun i => pow_zero _),
    Fin.prod_univ_three]

theorem degree_three {K : Type} [LinearOrderedField K] (p : MvPolynomial (Fin 3) K) (hp : p.totalDegree ≤ 2)
    (s : Fin 3 →₀ ℕ) (hs : s ∈ p.support) : s 0 + s 1 + s 2 ≤ 2 := by
  have h := MvPolynomial.le_totalDegree hs
  rw [Finsupp.sum_fintype _ _ (fun _ => rfl), Fin.sum_univ_three] at h
  omega

theorem central_monomial {K : Type} [LinearOrderedField K] (s : Fin 3 →₀ ℕ) (a : K)
    (hs : s 0 + s 1 + s 2 ≤ 2) (x : Fin 3 → K) (d : Fin 3) (h : K) (hh : h ≠ 0) :
    (1 / 2 * MvPolynomial.eval (Function.update x d (x d + h)) (MvPolynomial.monomial s a) +
      0 * MvPolynomial.eval x (MvPolynomial.monomial s a) +
      -(1 / 2) * MvPolynomial.eval (Function.update x d (x d - h)) (MvPolynomial.monomial s a)) * h⁻¹ =
      MvPolynomial.eval x (MvPolynomial.pderiv d (MvPolynomial.monomial s a)) := by
  rw [MvPolynomial.pderiv_monomial]
  simp only [eval_monomial_three, Finsupp.coe_tsub, Pi.sub_apply, Finsupp.single_apply]
  generalize hn0 : s 0 = n0 at hs ⊢
  generalize hn1 : s 1 = n1 at hs ⊢
  generalize hn2 : s 2 = n2 at hs ⊢
  have h0 : n0 ≤ 2 := by omega
  have h1 : n1 ≤ 2 := by omega
  have h2 : n2 ≤ 2 := by omega
  fin_cases d <;> interval_cases n0 <;> interval_cases n1 <;> interval_cases n2 <;>
    first
    | omega
    | (simp [Function.update, hn0, hn1, hn2]; try (field_simp; ring))

theorem central_diff_exact {K : Type} [LinearOrderedField K] (p : MvPolynomial (Fin 3) K)
    (hp : p.totalDegree ≤ 2) (x : Fin 3 → K) (d : Fin 3) (h : K) (hh : h ≠ 0) :
    (1 / 2 * MvPolynomial.eval (Function.update x d (x d + h)) p +
      0 * MvPolynomial.eval x p +
      -(1 / 2) * MvPolynomial.eval (Function.update x d (x d - h)) p) * h⁻¹ =
      MvPolynomial.eval x (MvPolynomial.pderiv d p) := by
  have key : ∀ s ∈ p.support,
      (1 / 2 * MvPolynomial.eval (Function.update x d (x d + h))
          (MvPolynomial.monomial s (MvPolynomial.coeff s p)) +
        0 * MvPolynomial.eval x (MvPolynomial.monomial s (MvPolynomial.coeff s p)) +
        -(1 / 2) * MvPolynomial.eval (Function.update x d (x d - h))
          (MvPolynomial.monomial s (MvPolynomial.coeff s p))) * h⁻¹ =
      MvPolynomial.eval x (MvPolynomial.pderiv d
        (MvPolynomial.monomial s (MvPolynomial.coeff s p))) :=
    fun s hs => central_monomial s _ (degree_three p hp s hs) x d h hh
  have hsum := Finset.sum_congr rfl key
  simp only [← Finset.sum_mul, Finset.sum_add_distrib, ← Finset.mul_sum, ← map_sum,
    MvPolynomial.support_sum_monomial_coeff] at hsum
  exact hsum

theorem second_monomial {K : Type} [LinearOrderedField K] (s : Fin 3 →₀ ℕ) (a : K)
    (hs : s 0 + s 1 + s 2 ≤ 2) (x : Fin 3 → K) (d : Fin 3) (h : K) (hh : h ≠ 0) :
    (1 * MvPolynomial.eval (Function.update x d (x d + h)) (MvPolynomial.monomial s a) +
      -2 * MvPolynomial.eval x (MvPolynomial.monomial s a) +
      1 * MvPolynomial.eval (Function.update x d (x d - h)) (MvPolynomial.monomial s a)) *
        h⁻¹ * h⁻¹ =
      MvPolynomial.eval x (MvPolynomial.pderiv d (MvPolynomial.pderiv d
        (MvPolynomial.monomial s a))) := by
  rw [MvPolynomial.pderiv_monomial, MvPolynomial.pderiv_monomial]
  simp only [eval_monomial_three, Finsupp.coe_tsub, Pi.sub_apply, Finsupp.single_apply]
  generalize hn0 : s 0 = n0 at hs ⊢
  generalize hn1 : s 1 = n1 at hs ⊢
  generalize hn2 : s 2 = n2 at hs ⊢
  have h0 : n0 ≤ 2 := by omega
  have h1 : n1 ≤ 2 := by omega
  have h2 : n2 ≤ 2 := by omega
  fin_cases d <;> interval_cases n0 <;> interval_cases n1 <;> interval_cases n2 <;>
    first
    | omega
    | (simp [Function.update, hn0, hn1, hn2]; first | (left; ring) | (field_simp; ring))

theorem second_diff_exact {K : Type} [LinearOrderedField K] (p : MvPolynomial (Fin 3) K)
    (hp : p.totalDegree ≤ 2) (x : Fin 3 → K) (d : Fin 3) (h : K) (hh : h ≠ 0) :
    (1 * MvPolynomial.eval (Function.update x d (x d + h)) p +
      -2 * MvPolynomial.eval x p +
      1 * MvPolynomial.eval (Function.update x d (x d - h)) p) * h⁻¹ * h⁻¹ =
      MvPolynomial.eval x (MvPolynomial.pderiv d (MvPolynomial.pderiv d p)) := by
  have key : ∀ s ∈ p.support,
      (1 * MvPolynomial.eval (Function.update x d (x d + h))
          (MvPolynomial.monomial s (MvPolynomial.coeff s p)) +
        -2 * MvPolynomial.eval x (MvPolynomial.monomial s (MvPolynomial.coeff s p)) +
        1 * MvPolynomial.eval (Function.update x d (x d - h))
          (MvPolynomial.monomial s (MvPolynomial.coeff s p))) * h⁻¹ * h⁻¹ =
      MvPolynomial.eval x (MvPolynomial.pderiv d (MvPolynomial.pderiv d
        (MvPolynomial.monomial s (MvPolynomial.coeff s p)))) :=
    fun s hs => second_monomial s _ (degree_three p hp s hs) x d h hh
  have hsum := Finset.sum_congr rfl key
  simp only [← Finset.sum_mul, Finset.sum_add_distrib, ← Finset.mul_sum, ← map_sum,
    MvPolynomial.support_sum_monomial_coeff] at hsum
  exact hsum

theorem cellCentre_shift {K : Type} [LinearOrderedField K] (geom : Geometry K) (i j k : Int)
    (d : Fin 3) (t : Int) (a : Array4 K) (c : Int) (q : MvPolynomial (Fin 3) K)
    (hsample : ∀ i' j' k', a i' j' k' c = MvPolynomial.eval (geom.cellCentre i' j' k') q) :
    a.shifted d t i j k c =
      MvPolynomial.eval (Function.update (geom.cellCentre i j k) d
        (geom.cellCentre i j k d + (t : K) * geom.dx d)) q := by
  have hpt : ∀ (i' j' k' : Int) (y : Fin 3 → K), geom.cellCentre i' j' k' = y →
      a i' j' k' c = MvPolynomial.eval y q := fun i' j' k' y hy => hy ▸ hsample i' j' k'
  fin_cases d
  · refine hpt _ _ _ _ ?_
    funext e
    fin_cases e <;> simp [Geometry.cellCentre, Geometry.CellCenter, Function.update]
    ring
  · refine hpt _ _ _ _ ?_
    funext e
    fin_cases e <;> simp [Geometry.cellCentre, Geometry.CellCenter, Function.update]
    ring
  · refine hpt _ _ _ _ ?_
    funext e
    fin_cases e <;> simp [Geometry.cellCentre, Geometry.CellCenter, Function.update]
    ring

theorem totalDegree_quadratic_example (a b c : ℚ) :
    (MvPolynomial.C a * MvPolynomial.X 0 ^ 2 + MvPolynomial.C b * MvPolynomial.X 1 +
      MvPolynomial.C c * MvPolynomial.X 2 : MvPolynomial (Fin 3) ℚ).totalDegree ≤ 2 := by
  have hC : ∀ (r : ℚ) (q : MvPolynomial (Fin 3) ℚ) (n : ℕ), q.totalDegree ≤ n →
      (MvPolynomial.C r * q).totalDegree ≤ n := by
    intro r q n hq
    refine le_trans (MvPolynomial.totalDegree_mul _ _) ?_
    rw [MvPolynomial.totalDegree_C]
    omega
  have h0 : (MvPolynomial.C a * MvPolynomial.X 0 ^ 2 :
      MvPolynomial (Fin 3) ℚ).totalDegree ≤ 2 :=
    hC _ _ _ (by rw [MvPolynomial.totalDegree_X_pow])
  have h1 : (MvPolynomial.C b * MvPolynomial.X 1 : MvPolynomial (Fin 3) ℚ).totalDegree ≤ 2 :=
    hC _ _ _ (by rw [MvPolynomial.totalDegree_X]; decide)
  have h2 : (MvPolynomial.C c * MvPolynomial.X 2 : MvPolynomial (Fin 3) ℚ).totalDegree ≤ 2 :=
    hC _ _ _ (by rw [MvPolynomial.totalDegree_X]; decide)
  refine le_trans (MvPolynomial.totalDegree_add _ _) (max_le ?_ h2)
  exact le_trans (MvPolynomial.totalDegree_add _ _) (max_le h0 h1)

/-- C9 (gradient stencil exactness): in exact arithmetic (any linearly ordered field, such as the
rationals or the reals),
on a grid with spacing `dx[d] ≠ 0` and inverse cell size `1 / dx[d]`, if input component `c`
is a polynomial of total degree at most two sampled at the cell centres and the stencil
triple on axis `d` is `(1/2, 0, -1/2)`, then at every cell of the effective box
`Gradient::apply` stores in output component `c * 3 + d` exactly the partial derivative of
the polynomial along `d` at the cell centre. -/
theorem C9_gradient_exactness {K : Type} [LinearOrderedField K] (self : Gradient K)
    (S : Stencil K) (geom : Geometry K) (tilebox : Box) (q : MvPolynomial (Fin 3) K)
    (i j k c : Int) (d : Fin 3)
    (hbox : (S.box tilebox geom).contains i j k) (h0 : 0 ≤ c)
    (h1 : c < self.m_phi.num_comp)
    (hcentral : S.c d 0 = 1 / 2 ∧ S.c d 1 = 0 ∧ S.c d 2 = -(1 / 2))
    (hdx : geom.dx d ≠ 0) (hinv : geom.InvCellSizeArray d = (geom.dx d)⁻¹)
    (hdeg : q.totalDegree ≤ 2)
    (hsample : ∀ i' j' k',
      self.m_phi.arr i' j' k' c = MvPolynomial.eval (geom.cellCentre i' j' k') q) :
    self.apply S geom tilebox i j k (c * 3 + (d.val : Int)) =
      MvPolynomial.eval (geom.cellCentre i j k) (MvPolynomial.pderiv d q) := by
  rw [Gradient.apply_written self S geom tilebox i j k c d hbox h0 h1]
  unfold Gradient.entry
  rw [cellCentre_shift geom i j k d 1 _ c q hsample,
    cellCentre_shift geom i j k d (-1) _ c q hsample, hsample i j k,
    hcentral.1, hcentral.2.1, hcentral.2.2, hinv,
    ← central_diff_exact q hdeg (geom.cellCentre i j k) d (geom.dx d) hdx]
  simp only [Int.cast_one, Int.cast_neg, one_mul, neg_mul, sub_eq_add_neg]

/-- The statement C9 for `exGradient` (component 1 is `i² + 3 j + k`, that is
`4 x² + 6 y + 2 z` at the cell centres) with the central stencil, at the cell `(1, 1, 1)`
and axis x. -/
theorem C9_gradient_exactness_witness :
    exGradient.apply exStencil exGeometry exDomain 1 1 1 (1 * 3 + ((0 : Fin 3).val : Int)) =
      MvPolynomial.eval (exGeometry.cellCentre 1 1 1)
        (MvPolynomial.pderiv 0
          (MvPolynomial.C 4 * MvPolynomial.X 0 ^ 2 + MvPolynomial.C 6 * MvPolynomial.X 1 +
            MvPolynomial.C 2 * MvPolynomial.X 2)) :=
  C9_gradient_exactness exGradient exStencil exGeometry exDomain
    (MvPolynomial.C 4 * MvPolynomial.X 0 ^ 2 + MvPolynomial.C 6 * MvPolynomial.X 1 +
      MvPolynomial.C 2 * MvPolynomial.X 2) 1 1 1 1 0
    (by decide) (by decide) (by decide)
    (by simp [Stencil.c, exStencil]; norm_num)
    (by simp [exGeometry])
    (by simp [Geometry.InvCellSizeArray, exGeometry])
    (totalDegree_quadratic_example 4 6 2)
    (by
      intro i' j' k'
      simp [exGradient, exPhi, Geometry.cellCentre, Geometry.CellCenter, exGeometry]
      ring)

/-- C10 (Laplacian stencil exactness): in exact arithmetic (any linearly ordered field),
on a grid with spacing `dx[d] ≠ 0` and inverse cell size `1 / dx[d]`, if each input
component `d` is a polynomial `p d` of total degree at most two sampled at the cell centres
and the stencil triple on every axis is `(1, -2, 1)`, then at every cell of the effective
box `Laplacian::apply` stores exactly the sum over `d` of the second partial derivative of
`p d` along axis `d` at the cell centre. -/
theorem C10_laplacian_exactness {K : Type} [LinearOrderedField K] (lphi phi : FieldPatch K)
    (self : Laplacian K) (hnew : Laplacian.new lphi phi = some self) (S : Stencil K)
    (geom : Geometry K) (tilebox : Box) (p : Fin 3 → MvPolynomial (Fin 3) K) (i j k : Int)
    (hbox : (S.box tilebox geom).contains i j k)
    (hstencil : ∀ d, S.s d 0 = 1 ∧ S.s d 1 = -2 ∧ S.s d 2 = 1)
    (hdx : ∀ d, geom.dx d ≠ 0) (hinv : ∀ d, geom.InvCellSizeArray d = (geom.dx d)⁻¹)
    (hdeg : ∀ d, (p d).totalDegree ≤ 2)
    (hsample : ∀ (d : Fin 3) i' j' k',
      phi.arr i' j' k' (d.val : Int) = MvPolynomial.eval (geom.cellCentre i' j' k') (p d)) :
    self.apply S geom tilebox i j k 0 =
      ∑ d : Fin 3, MvPolynomial.eval (geom.cellCentre i j k)
        (MvPolynomial.pderiv d (MvPolynomial.pderiv d (p d))) := by
  have hphi : self.m_phi = phi ∧ phi.num_comp = 3 := by
    unfold Laplacian.new at hnew
    split_ifs at hnew with ha hb
    simp only [Option.some.injEq] at hnew
    subst hnew
    exact ⟨rfl, hb⟩
  rw [Laplacian.lapApply_written self S geom tilebox i j k hbox
    (by rw [hphi.1, hphi.2]; decide), hphi.1, Fin.sum_univ_three]
  have haxis : ∀ d : Fin 3,
      Laplacian.axisSum S phi.arr i j k d * geom.InvCellSizeArray d *
          geom.InvCellSizeArray d =
        MvPolynomial.eval (geom.cellCentre i j k)
          (MvPolynomial.pderiv d (MvPolynomial.pderiv d (p d))) := by
    intro d
    unfold Laplacian.axisSum
    rw [cellCentre_shift geom i j k d 1 _ _ (p d) (hsample d),
      cellCentre_shift geom i j k d (-1) _ _ (p d) (hsample d), hsample d i j k,
      (hstencil d).1, (hstencil d).2.1, (hstencil d).2.2, hinv d,
      ← second_diff_exact (p d) (hdeg d) (geom.cellCentre i j k) d (geom.dx d) (hdx d)]
    simp only [Int.cast_one, Int.cast_neg, one_mul, neg_mul, sub_eq_add_neg]
  rw [haxis 0, haxis 1, haxis 2]

/-- The statement C10 for `exLaplacian` (component `d` is `i² + 3 j + d k`, that is
`4 x² + 6 y + 2 d z` at the cell centres) with the central stencil, at the cell
`(1, 1, 1)`. -/
theorem C10_laplacian_exactness_witness :
    exLaplacian.apply exStencil exGeometry exDomain 1 1 1 0 =
      ∑ d : Fin 3, MvPolynomial.eval (exGeometry.cellCentre 1 1 1)
        (MvPolynomial.pderiv d (MvPolynomial.pderiv d
          (MvPolynomial.C 4 * MvPolynomial.X 0 ^ 2 + MvPolynomial.C 6 * MvPolynomial.X 1 +
            MvPolynomial.C (2 * ((d.val : Int) : ℚ)) * MvPolynomial.X 2))) :=
  C10_laplacian_exactness exLapOut exPhi exLaplacian rfl exStencil exGeometry exDomain
    (fun d => MvPolynomial.C 4 * MvPolynomial.X 0 ^ 2 + MvPolynomial.C 6 * MvPolynomial.X 1 +
      MvPolynomial.C (2 * ((d.val : Int) : ℚ)) * MvPolynomial.X 2) 1 1 1
    (by decide)
    (by intro d; fin_cases d <;> simp [Stencil.s, exStencil])
    (by intro d; simp [exGeometry])
    (by intro d; simp [Geometry.InvCellSizeArray, exGeometry])
    (fun d => totalDegree_quadratic_example 4 6 _)
    (by
      intro d i' j' k'
      simp [exPhi, Geometry.cellCentre, Geometry.CellCenter, exGeometry]
      ring)

/-! ### Claims on construction and on the empty box -/

/-- C11 (gradient arity check): constructing `Gradient(gradphi, phi)` aborts on its
assertion if and only if `gradphi.num_comp() ≠ 3 * phi.num_comp()`; when the counts match
the construction succeeds and the operator refers to the two fields. -/
theorem C11_gradient_arity_check {R : Type} (gradphi phi : FieldPatch R) :
    (Gradient.new gradphi phi = none ↔ gradphi.num_comp ≠ 3 * phi.num_comp) ∧
      (gradphi.num_comp = 3 * phi.num_comp →
        Gradient.new gradphi phi = some { m_gradphi := gradphi, m_phi := phi }) := by
  unfold Gradient.new
  constructor
  · constructor
    · intro h heq
      rw [if_pos heq] at h
      exact Option.noConfusion h
    · intro h
      rw [if_neg h]
  · intro heq
    rw [if_pos heq]

/-- C12 (Laplacian arity check): constructing `Laplacian(lphi, phi)` aborts on one of its
assertions if and only if `lphi.num_comp() ≠ 1` or `phi.num_comp() ≠ 3`; in particular
every input whose component count is not the spatial dimension is rejected, and when both
counts are right the construction succeeds. -/
theorem C12_laplacian_arity_check {R : Type} (lphi phi : FieldPatch R) :
    (Laplacian.new lphi phi = none ↔ lphi.num_comp ≠ 1 ∨ phi.num_comp ≠ 3) ∧
      (phi.num_comp ≠ 3 → Laplacian.new lphi phi = none) ∧
      (lphi.num_comp = 1 → phi.num_comp = 3 →
        Laplacian.new lphi phi = some { m_lapphi := lphi, m_phi := phi }) := by
  unfold Laplacian.new
  refine ⟨⟨?_, ?_⟩, ?_, ?_⟩
  · intro h
    by_cases h1 : lphi.num_comp = 1
    · by_cases h3 : phi.num_comp = 3
      · rw [if_pos h1, if_pos h3] at h
        exact Option.noConfusion h
      · exact Or.inr h3
    · exact Or.inl h1
  · intro h
    by_cases h1 : lphi.num_comp = 1
    · rw [if_pos h1]
      rcases h with h | h
      · exact absurd h1 h
      · rw [if_neg h]
    · rw [if_neg h1]
  · intro h3
    by_cases h1 : lphi.num_comp = 1
    · rw [if_pos h1, if_neg h3]
    · rw [if_neg h1]
  · intro h1 h3
    rw [if_pos h1, if_pos h3]

/-- C13 (empty-box no-op): when the effective box `Stencil::box(tilebox, geom)` is empty,
`Gradient::apply` and `Laplacian::apply` return the output array they were given, entry
for entry, and the result is the same whatever the input field holds (no input cell is
read). -/
theorem C13_empty_box_noop {R : Type} [Add R] [Mul R] (S : Stencil R) (geom : Geometry R)
    (tilebox : Box) (hempty : (S.box tilebox geom).isEmpty = true) :
    (∀ self : Gradient R, self.apply S geom tilebox = self.m_gradphi.arr) ∧
      (∀ self : Laplacian R, self.apply S geom tilebox = self.m_lapphi.arr) ∧
      (∀ (out : FieldPatch R) (phi phi' : FieldPatch R),
        Gradient.apply { m_gradphi := out, m_phi := phi } S geom tilebox =
            Gradient.apply { m_gradphi := out, m_phi := phi' } S geom tilebox ∧
          Laplacian.apply { m_lapphi := out, m_phi := phi } S geom tilebox =
            Laplacian.apply { m_lapphi := out, m_phi := phi' } S geom tilebox) := by
  have hg : ∀ self : Gradient R, self.apply S geom tilebox = self.m_gradphi.arr := by
    intro self
    unfold Gradient.apply
    simp only [hempty, if_true]
  have hl : ∀ self : Laplacian R, self.apply S geom tilebox = self.m_lapphi.arr := by
    intro self
    unfold Laplacian.apply
    simp only [hempty, if_true]
  refine ⟨hg, hl, ?_⟩
  intro out phi phi'
  exact ⟨by rw [hg, hg], by rw [hl, hl]⟩

/-- The statement C13 for the central stencil on the empty tile box `exEmptyBox`: the
outputs of `exGradient` and `exLaplacian` are returned as they were. -/
theorem C13_empty_box_noop_witness :
    exGradient.apply exStencil exGeometry exEmptyBox = exGradient.m_gradphi.arr ∧
      exLaplacian.apply exStencil exGeometry exEmptyBox = exLaplacian.m_lapphi.arr :=
  have h := C13_empty_box_noop exStencil exGeometry exEmptyBox (by decide)
  ⟨h.1 exGradient, h.2.1 exLaplacian⟩

/-- The field of `exShortStorage` declares two components and every per-face
boundary-value array holds one value, yet `ConstDirichlet` and `DirichletOp` are
constructed from it: neither construction aborts. -/
theorem C14_short_table_counterexample :
    (∀ ori, (exShortStorage.bc_values_size ori : Int) < exShortStorage.fld.num_comp) ∧
      ConstDirichlet.new exShortStorage ≠ none ∧
      DirichletOp.new exShortStorage ≠ none ∧
      (ConstDirichlet.new exShortStorage).map (fun op => op.m_ncomp) = some 2 := by
  refine ⟨by decide, ?_, ?_, rfl⟩
  · intro h
    exact Option.noConfusion h
  · intro h
    exact Option.noConfusion h

/-- C14 (boundary-value table length, amended): constructing `ConstDirichlet`, and
`DirichletOp` built from it, never aborts, whatever the sizes of the per-face
boundary-value arrays: the constructors only copy `num_comp()`, the table pointers and the
category table of the field. -/
theorem C14_construction_unchecked {R : Type} (st : FieldStorage R) :
    ConstDirichlet.new st =
        some { m_ncomp := st.fld.num_comp, m_bcv := st.fld.bc_values_device } ∧
      DirichletOp.new st =
        some { m_ncomp := st.fld.num_comp, m_bc_type := st.fld.bc_type,
               m_inflow_op :=
                 ConstDirichlet.operator
                   { m_ncomp := st.fld.num_comp, m_bcv := st.fld.bc_values_device },
               m_wall_op :=
                 ConstDirichlet.operator
                   { m_ncomp := st.fld.num_comp, m_bcv := st.fld.bc_values_device } } :=
  ⟨rfl, rfl⟩

/-! ### Claims on the no-op operator and on skipped faces -/

/-- C16 (no-op operator): for every input the fill form `FieldBCNoOp::operator()` and
`FieldBCNoOp::set_inflow` return the state they were given (every cell and component of
the field unchanged), and the functor returned by the factory form
`FieldBCNoOp::operator()()` behaves in the same way. -/
theorem C16_noop_operator {σ R : Type} (self : FieldBCNoOp) (iv : IntVect) (field : σ)
    (dcomp numcomp : Int) (geom : GeometryData R) (time : R) (bcr : Int → BCRec)
    (bcomp orig_comp : Int) (ori : Orientation) (comp : Int) :
    self.operator iv field dcomp numcomp geom time bcr bcomp orig_comp = field ∧
      self.set_inflow iv field geom time ori comp dcomp orig_comp = field ∧
      self.create.operator iv field dcomp numcomp geom time bcr bcomp orig_comp = field ∧
      self.create.set_inflow iv field geom time ori comp dcomp orig_comp = field ∧
      self.create = self :=
  ⟨rfl, rfl, rfl, rfl, rfl⟩

theorem onFace_ne_of_no_ext_dir (bc : BCRec)
    (h : ∀ d, bc.lo d ≠ BCType.ext_dir ∧ bc.hi d ≠ BCType.ext_dir) (ori : Orientation) :
    bc.onFace ori ≠ BCType.ext_dir := by
  unfold BCRec.onFace
  split_ifs
  · exact (h _).1
  · exact (h _).2

/-- C18 (non-Dirichlet faces are skipped): for every inflow and wall policy and every
category table, if for every requested component `n` with `0 ≤ n < numcomp` no face of
`bcr[bcomp + n]` is `ext_dir`, then `DirichletOp::operator()` returns the state it was
given, at any cell `iv` (inside or outside the domain), and calls neither policy. -/
theorem C18_non_dirichlet_skipped {σ R : Type} (self : DirichletOp σ R) (iv : IntVect)
    (field : σ) (dcomp numcomp : Int) (geom : GeometryData R) (time : R)
    (bcr : Int → BCRec) (bcomp orig_comp : Int)
    (hno : ∀ n, 0 ≤ n → n < numcomp →
      ∀ d, (bcr (bcomp + n)).lo d ≠ BCType.ext_dir ∧ (bcr (bcomp + n)).hi d ≠ BCType.ext_dir) :
    self.operator iv field dcomp numcomp geom time bcr bcomp orig_comp = field ∧
      DirichletOp.trace self.m_bc_type iv dcomp numcomp geom time bcr bcomp orig_comp = [] := by
  have hnil : dispatchCalls self.m_bc_type iv dcomp numcomp geom bcr bcomp orig_comp = [] :=
    dispatchCalls_eq_nil _ _ _ _ _ _ _ _
      (fun n ori h0 h1 hdir => absurd hdir (onFace_ne_of_no_ext_dir _ (hno n h0 h1) ori))
  constructor
  · rw [operator_eq_replay, hnil]
    rfl
  · rw [trace_eq_dispatchCalls, hnil]

/-- The statement C18 at the corner cell `(-1, -1, 0)`, outside the domain, with a record
table that has no `ext_dir` face: the field stays `exZero` and no policy is called. -/
theorem C18_non_dirichlet_skipped_witness :
    (DirichletOp.ofField exFieldWall).operator exCorner exZero 0 1 exGeom 0
        (fun _ => exBCRecNoDir) 0 0 = exZero ∧
      DirichletOp.trace (DirichletOp.ofField exFieldWall).m_bc_type exCorner 0 1 exGeom 0
        (fun _ => exBCRecNoDir) 0 0 = [] :=
  C18_non_dirichlet_skipped (DirichletOp.ofField exFieldWall) exCorner exZero 0 1 exGeom 0
    (fun _ => exBCRecNoDir) 0 0
    (fun _ _ _ => (by decide : ∀ d : Fin 3,
      exBCRecNoDir.lo d ≠ BCType.ext_dir ∧ exBCRecNoDir.hi d ≠ BCType.ext_dir))

/-! ### Idempotence of the gradient -/

/-- C15 (operator idempotence): for fixed input field, geometry and stencil,
`Gradient::apply` stores in each of the `3 * ncomp` output components of every cell of the
effective box a value that is the same whatever the output held before, it leaves the
output cells outside the box unchanged, and applying it to its own result gives that
result again. -/
theorem C15_gradient_idempotent {R : Type} [Add R] [Mul R] (self : Gradient R)
    (S : Stencil R) (geom : Geometry R) (tilebox : Box) :
    (∀ (i j k c : Int) (d : Fin 3), (S.box tilebox geom).contains i j k → 0 ≤ c →
        c < self.m_phi.num_comp → ∀ prev : FieldPatch R,
        Gradient.apply { m_gradphi := prev, m_phi := self.m_phi } S geom tilebox i j k
            (c * 3 + (d.val : Int)) =
          self.apply S geom tilebox i j k (c * 3 + (d.val : Int))) ∧
      (∀ i j k m : Int, ¬ (S.box tilebox geom).contains i j k →
        self.apply S geom tilebox i j k m = self.m_gradphi.arr i j k m) ∧
      Gradient.apply
          { m_gradphi := { num_comp := self.m_gradphi.num_comp,
                           arr := self.apply S geom tilebox },
            m_phi := self.m_phi } S geom tilebox =
        self.apply S geom tilebox := by
  refine ⟨?_, ?_, ?_⟩
  · intro i j k c d hbox h0 h1 prev
    rw [Gradient.apply_written self S geom tilebox i j k c d hbox h0 h1,
      Gradient.apply_written { m_gradphi := prev, m_phi := self.m_phi } S geom tilebox
        i j k c d hbox h0 h1]
  · intro i j k m hout
    exact Gradient.apply_frame self S geom tilebox i j k m (Or.inl hout)
  · funext i j k m
    by_cases hw : (S.box tilebox geom).contains i j k ∧ 0 ≤ m ∧ m < 3 * self.m_phi.num_comp
    · obtain ⟨hbox, hm0, hm1⟩ := hw
      have hd : (m % 3).toNat < 3 := by omega
      have hm : m = m / 3 * 3 + (((⟨(m % 3).toNat, hd⟩ : Fin 3).val : Nat) : Int) := by
        simp only
        omega
      rw [hm]
      rw [Gradient.apply_written self S geom tilebox i j k (m / 3) _ hbox (by omega)
          (by omega),
        Gradient.apply_written
          { m_gradphi := { num_comp := self.m_gradphi.num_comp,
                           arr := self.apply S geom tilebox },
            m_phi := self.m_phi } S geom tilebox i j k (m / 3) _ hbox (by omega)
          (show m / 3 < self.m_phi.num_comp by omega)]
    · have hfr : ¬ (S.box tilebox geom).contains i j k ∨ m < 0 ∨
          3 * self.m_phi.num_comp ≤ m := by
        by_cases hbox : (S.box tilebox geom).contains i j k
        · right
          by_contra hcon
          exact hw ⟨hbox, by omega, by omega⟩
        · exact Or.inl hbox
      exact Gradient.apply_frame
        { m_gradphi := { num_comp := self.m_gradphi.num_comp,
                         arr := self.apply S geom tilebox },
          m_phi := self.m_phi } S geom tilebox i j k m hfr

/-! ### Independence of the category table -/

theorem faceStep_ofField_category {R : Type} (fld fld' : Field R)
    (hbcv : fld.bc_values_device = fld'.bc_values_device) (iv : IntVect) (dcomp : Int)
    (geom : GeometryData R) (time : R) (bc : BCRec) (orig_comp n : Int) :
    (DirichletOp.ofField fld).faceStep iv dcomp geom time bc orig_comp n =
      (DirichletOp.ofField fld').faceStep iv dcomp geom time bc orig_comp n := by
  funext field ori
  unfold DirichletOp.faceStep DirichletOp.ofField ConstDirichlet.ofField
  simp only [hbcv]
  split_ifs <;> rfl

/-- C20 (category independence of the default Dirichlet functor): two functors produced
by `FieldBCDirichlet` from fields with the same boundary-value table give, for the same
arguments, the same field after `operator()`, whatever their per-face category tables
are. -/
theorem C20_category_independence {R : Type} (fld fld' : Field R)
    (hbcv : fld.bc_values_device = fld'.bc_values_device) (iv : IntVect)
    (field : Array4 R) (dcomp numcomp : Int) (geom : GeometryData R) (time : R)
    (bcr : Int → BCRec) (bcomp orig_comp : Int) :
    (FieldBCDirichlet.mk fld).create.operator iv field dcomp numcomp geom time bcr bcomp
        orig_comp =
      (FieldBCDirichlet.mk fld').create.operator iv field dcomp numcomp geom time bcr bcomp
        orig_comp := by
  unfold FieldBCDirichlet.create DirichletOp.operator
  have hstep : (DirichletOp.ofField fld).compStep iv dcomp geom time bcr bcomp orig_comp =
      (DirichletOp.ofField fld').compStep iv dcomp geom time bcr bcomp orig_comp := by
    funext s n
    unfold DirichletOp.compStep
    simp only [faceStep_ofField_category fld fld' hbcv]
  simp only [hstep]

/-- The statement C20 for `exFieldWall` (every face `wall`) and `exFieldWallAsInflow`
(every face `mass_inflow`), which share their boundary values, at the corner cell. -/
theorem C20_category_independence_witness :
    (FieldBCDirichlet.mk exFieldWall).create.operator exCorner exZero 0 1 exGeom 0
        exBcrAllDir 0 0 =
      (FieldBCDirichlet.mk exFieldWallAsInflow).create.operator exCorner exZero 0 1 exGeom 0
        exBcrAllDir 0 0 :=
  C20_category_independence exFieldWall exFieldWallAsInflow rfl exCorner exZero 0 1 exGeom 0
    exBcrAllDir 0 0

/-! ### The last writer of a boundary entry -/

theorem lastHit_append_cons (A B : List Invocation) (c : Invocation) (i j k m : Int)
    (hc : Invocation.hits i j k m c = true)
    (hB : ∀ b ∈ B, Invocation.hits i j k m b = false) :
    lastHit (A ++ c :: B) i j k m = some c := by
  unfold lastHit
  have hnone : B.reverse.find? (Invocation.hits i j k m) = none := by
    rw [List.find?_eq_none]
    intro x hx
    rw [hB x (List.mem_reverse.mp hx)]
    exact Bool.false_ne_true
  rw [List.reverse_append, List.reverse_cons, List.append_assoc, List.find?_append, hnone,
    List.singleton_append, List.find?_cons, hc]
  rfl

theorem filter_getLast_split {α : Type} (q : α → Bool) (l : List α) (x : α)
    (h : (l.filter q).getLast? = some x) :
    ∃ O1 O2, l = O1 ++ x :: O2 ∧ q x = true ∧ ∀ y ∈ O2, q y = false := by
  induction l using List.reverseRecOn with
  | nil => simp at h
  | append_singleton xs y ih =>
    rw [List.filter_append] at h
    by_cases hy : q y = true
    · have hf : List.filter q [y] = [y] := by simp [hy]
      rw [hf, List.getLast?_concat] at h
      have hxy : y = x := Option.some.inj h
      subst hxy
      exact ⟨xs, [], rfl, hy, fun _ hmem => by simp at hmem⟩
    · have hf : List.filter q [y] = [] := by simp [hy]
      rw [hf, List.append_nil] at h
      obtain ⟨O1, O2, hl, hq, hO2⟩ := ih h
      refine ⟨O1, O2 ++ [y], ?_, hq, ?_⟩
      · rw [hl, List.append_assoc, List.cons_append]
      · intro z hz
        rw [List.mem_append, List.mem_singleton] at hz
        rcases hz with hz | hz
        · exact hO2 z hz
        · rw [hz]
          simpa using hy

theorem qualifies_iff (bc : BCRec) (domain_box : Box) (iv : IntVect) (ori : Orientation) :
    qualifies bc domain_box iv ori = true ↔
      bc.onFace ori = BCType.ext_dir ∧ isBndry domain_box iv ori = true := by
  unfold qualifies
  simp only [Bool.and_eq_true, decide_eq_true_eq]

theorem lastExtDirFace_isSome (bc : BCRec) (domain_box : Box) (iv : IntVect)
    (hex : ∃ ori, qualifies bc domain_box iv ori = true) :
    ∃ ori_star, lastExtDirFace bc domain_box iv = some ori_star := by
  obtain ⟨ori, hq⟩ := hex
  unfold lastExtDirFace
  cases hl : (OrientationIter.filter (qualifies bc domain_box iv)).getLast? with
  | some x => exact ⟨x, rfl⟩
  | none =>
    exfalso
    rw [List.getLast?_eq_none_iff] at hl
    have hmem : ori ∈ OrientationIter.filter (qualifies bc domain_box iv) :=
      List.mem_filter.mpr ⟨mem_OrientationIter ori, hq⟩
    rw [hl] at hmem
    simp at hmem

theorem mem_compCalls {R : Type} {bc_type : Orientation → BC} {iv : IntVect} {dcomp : Int}
    {geom : GeometryData R} {bcr : Int → BCRec} {bcomp orig_comp n : Int} {c : Invocation}
    (h : c ∈ compCalls bc_type iv dcomp geom bcr bcomp orig_comp n) :
    c.comp = n ∧ c.dcomp = dcomp ∧ c.iv = iv := by
  unfold compCalls faceCalls at h
  rw [List.mem_flatMap] at h
  obtain ⟨ori, -, hc⟩ := h
  split_ifs at hc with hq
  · rw [List.mem_singleton] at hc
    subst hc
    exact ⟨rfl, rfl, rfl⟩
  · simp at hc

theorem compRange_nodup (numcomp : Int) : (compRange numcomp).Nodup := by
  unfold compRange
  exact List.Nodup.map (fun a b hab => by simpa using hab) (List.nodup_range _)

/-- The last call that writes the entry `(iv, dcomp + n)` is the call of component `n` for
the last face that is `ext_dir` in `bcr[bcomp + n]` and has `iv` on its strip. -/
theorem lastHit_dispatchCalls {R : Type} (bc_type : Orientation → BC) (iv : IntVect)
    (dcomp numcomp : Int) (geom : GeometryData R) (bcr : Int → BCRec)
    (bcomp orig_comp n : Int) (ori_star : Orientation) (h0 : 0 ≤ n) (h1 : n < numcomp)
    (hstar : lastExtDirFace (bcr (bcomp + n)) geom.Domain iv = some ori_star) :
    lastHit (dispatchCalls bc_type iv dcomp numcomp geom bcr bcomp orig_comp)
        (iv 0) (iv 1) (iv 2) (dcomp + n) =
      some (Invocation.mk (dispatchTag (bc_type ori_star)) iv ori_star n dcomp orig_comp) := by
  obtain ⟨L1, L2, hL⟩ := List.append_of_mem (mem_compRange.mpr ⟨h0, h1⟩)
  have hnd := compRange_nodup numcomp
  rw [hL] at hnd
  have hn2 : n ∉ L2 := by
    intro hmem
    rw [List.nodup_append] at hnd
    exact (List.nodup_cons.mp hnd.2.1).1 hmem
  obtain ⟨O1, O2, hO, hq, hO2⟩ := filter_getLast_split _ _ _ hstar
  have hcn : compCalls bc_type iv dcomp geom bcr bcomp orig_comp n =
      O1.flatMap (faceCalls bc_type iv dcomp geom (bcr (bcomp + n)) orig_comp n) ++
        [Invocation.mk (dispatchTag (bc_type ori_star)) iv ori_star n dcomp orig_comp] := by
    unfold compCalls
    rw [hO, List.flatMap_append, List.flatMap_cons]
    have hstarCalls : faceCalls bc_type iv dcomp geom (bcr (bcomp + n)) orig_comp n ori_star =
        [Invocation.mk (dispatchTag (bc_type ori_star)) iv ori_star n dcomp orig_comp] := by
      unfold faceCalls
      rw [if_pos ((qualifies_iff _ _ _ _).mp hq)]
    have hrest : O2.flatMap (faceCalls bc_type iv dcomp geom (bcr (bcomp + n)) orig_comp n) =
        [] := by
      rw [List.eq_nil_iff_forall_not_mem]
      intro c hc
      rw [List.mem_flatMap] at hc
      obtain ⟨ori, hori, hmem⟩ := hc
      unfold faceCalls at hmem
      have hnq : ¬ ((bcr (bcomp + n)).onFace ori = BCType.ext_dir ∧
          isBndry geom.Domain iv ori = true) := by
        intro hcon
        have := (qualifies_iff _ _ _ _).mpr hcon
        rw [hO2 ori hori] at this
        exact Bool.false_ne_true this
      rw [if_neg hnq] at hmem
      simp at hmem
    rw [hstarCalls, hrest, List.append_nil]
  unfold dispatchCalls
  rw [hL, List.flatMap_append, List.flatMap_cons, hcn, List.append_assoc, ← List.append_assoc,
    List.singleton_append]
  apply lastHit_append_cons
  · simp [Invocation.hits]
  · intro b hb
    rw [List.mem_flatMap] at hb
    obtain ⟨n', hn', hmem⟩ := hb
    obtain ⟨hcomp, hdcomp, -⟩ := mem_compCalls hmem
    have hne : n' ≠ n := fun heq => hn2 (heq ▸ hn')
    simp only [Invocation.hits, decide_eq_false_iff_not, hcomp, hdcomp]
    intro hcon
    exact hne (by omega)

theorem constValue_mk {R : Type} (inflow wall : ConstDirichlet R) (b : BC) (iv : IntVect)
    (ori : Orientation) (n dcomp orig_comp : Int) :
    constValue inflow wall (Invocation.mk (dispatchTag b) iv ori n dcomp orig_comp) =
      (if b = BC.mass_inflow then inflow.m_bcv else wall.m_bcv) ori (orig_comp + n) := by
  unfold constValue dispatchTag
  by_cases hb : b = BC.mass_inflow
  · simp [hb]
  · simp [hb]

theorem OrientationIter_sorted : OrientationIter.Pairwise (fun a b => a < b) := by
  unfold OrientationIter
  decide

theorem lastExtDirFace_spec (bc : BCRec) (domain_box : Box) (iv : IntVect)
    (ori_star : Orientation) (hstar : lastExtDirFace bc domain_box iv = some ori_star) :
    qualifies bc domain_box iv ori_star = true ∧
      ∀ ori, qualifies bc domain_box iv ori = true → ori ≤ ori_star := by
  obtain ⟨O1, O2, hO, hq, hO2⟩ := filter_getLast_split _ _ _ hstar
  refine ⟨hq, ?_⟩
  intro ori hori
  have hmem := mem_OrientationIter ori
  have hsorted := OrientationIter_sorted
  rw [hO] at hmem hsorted
  rw [List.mem_append, List.mem_cons] at hmem
  rcases hmem with h | h | h
  · exact le_of_lt ((List.pairwise_append.mp hsorted).2.2 ori h ori_star
      (List.mem_cons_self _ _))
  · exact le_of_eq h
  · rw [hO2 ori h] at hori
    exact absurd hori Bool.false_ne_true

/-! ### Claims on corner cells and on the write footprint -/

/-- C17 (corner cells, last orientation wins): for `DirichletOp<ConstDirichlet,
ConstDirichlet>`, a component `n` with `0 ≤ n < numcomp` and a cell `iv` on the strip of at
least one face that is `ext_dir` in `bcr[bcomp + n]`, there is a last such face `ori_star`
in the order of `OrientationIter` (it is such a face and no such face comes after it), and
after `operator()` the entry `field(iv, dcomp + n)` is `m_bcv[ori_star][orig_comp + n]`:
the table of the field for the functor built from a field, and the table of the policy
chosen by the category of `ori_star` when the two policies were given separately. -/
theorem C17_last_orientation_wins {R : Type} (fld : Field R) (inflow wall : ConstDirichlet R)
    (iv : IntVect) (field : Array4 R) (dcomp numcomp : Int) (geom : GeometryData R)
    (time : R) (bcr : Int → BCRec) (bcomp orig_comp n : Int)
    (h0 : 0 ≤ n) (h1 : n < numcomp)
    (hex : ∃ ori, (bcr (bcomp + n)).onFace ori = BCType.ext_dir ∧
      isBndry geom.Domain iv ori = true) :
    ∃ ori_star, lastExtDirFace (bcr (bcomp + n)) geom.Domain iv = some ori_star ∧
      ((bcr (bcomp + n)).onFace ori_star = BCType.ext_dir ∧
        isBndry geom.Domain iv ori_star = true) ∧
      (∀ ori, (bcr (bcomp + n)).onFace ori = BCType.ext_dir →
        isBndry geom.Domain iv ori = true → ori ≤ ori_star) ∧
      (DirichletOp.ofField fld).operator iv field dcomp numcomp geom time bcr bcomp orig_comp
          (iv 0) (iv 1) (iv 2) (dcomp + n) =
        fld.bc_values_device ori_star (orig_comp + n) ∧
      (DirichletOp.ofFieldOps fld inflow.operator wall.operator).operator iv field dcomp
          numcomp geom time bcr bcomp orig_comp (iv 0) (iv 1) (iv 2) (dcomp + n) =
        (if fld.bc_type ori_star = BC.mass_inflow then inflow.m_bcv else wall.m_bcv)
          ori_star (orig_comp + n) := by
  obtain ⟨ori, hori⟩ := hex
  obtain ⟨ori_star, hstar⟩ := lastExtDirFace_isSome (bcr (bcomp + n)) geom.Domain iv
    ⟨ori, (qualifies_iff _ _ _ _).mpr hori⟩
  obtain ⟨hq, hmax⟩ := lastExtDirFace_spec _ _ _ _ hstar
  have hlast := lastHit_dispatchCalls fld.bc_type iv dcomp numcomp geom bcr bcomp orig_comp n
    ori_star h0 h1 hstar
  refine ⟨ori_star, hstar, (qualifies_iff _ _ _ _).mp hq,
    fun o ho1 ho2 => hmax o ((qualifies_iff _ _ _ _).mpr ⟨ho1, ho2⟩), ?_, ?_⟩
  · rw [ofField_eq_ofFieldOps, operator_const_apply, hlast]
    simp only [constValue_mk, ConstDirichlet.ofField, ite_self]
  · rw [operator_const_apply, hlast]
    simp only [constValue_mk]

/-- The statement C17 at the corner cell `(-1, -1, 0)` of `exFieldWall` with every face
`ext_dir`: the strips of x-low and y-low contain the cell, and y-low is the last. -/
theorem C17_last_orientation_wins_witness :
    ∃ ori_star, lastExtDirFace (exBcrAllDir (0 + 0)) exGeom.Domain exCorner = some ori_star ∧
      ((exBcrAllDir (0 + 0)).onFace ori_star = BCType.ext_dir ∧
        isBndry exGeom.Domain exCorner ori_star = true) ∧
      (∀ ori, (exBcrAllDir (0 + 0)).onFace ori = BCType.ext_dir →
        isBndry exGeom.Domain exCorner ori = true → ori ≤ ori_star) ∧
      (DirichletOp.ofField exFieldWall).operator exCorner exZero 0 1 exGeom 0 exBcrAllDir 0 0
          (exCorner 0) (exCorner 1) (exCorner 2) (0 + 0) =
        exFieldWall.bc_values_device ori_star (0 + 0) ∧
      (DirichletOp.ofFieldOps exFieldWall (ConstDirichlet.ofField exFieldWall).operator
          (ConstDirichlet.ofField exFieldWall).operator).operator exCorner exZero 0 1 exGeom 0
          exBcrAllDir 0 0 (exCorner 0) (exCorner 1) (exCorner 2) (0 + 0) =
        (if exFieldWall.bc_type ori_star = BC.mass_inflow
          then (ConstDirichlet.ofField exFieldWall).m_bcv
          else (ConstDirichlet.ofField exFieldWall).m_bcv) ori_star (0 + 0) :=
  C17_last_orientation_wins exFieldWall (ConstDirichlet.ofField exFieldWall)
    (ConstDirichlet.ofField exFieldWall) exCorner exZero 0 1 exGeom 0 exBcrAllDir 0 0 0
    (by decide) (by decide) ⟨0, by decide, by decide⟩

/-- C19 (write footprint of constant-Dirichlet dispatch): after
`DirichletOp<ConstDirichlet, ConstDirichlet>::operator()` on the cell `iv` with destination
offset `dcomp` and count `numcomp`, every entry other than the components
`dcomp .. dcomp + numcomp - 1` of `iv` is unchanged; and for `0 ≤ n < numcomp` the entry
`dcomp + n` of `iv` is either unchanged, when no face of the record `bcr[bcomp + n]` is
`ext_dir` with `iv` on its strip, or holds the boundary value of index `orig_comp + n` of
such a face of the record `bcr[bcomp + n]`. -/
theorem C19_write_footprint {R : Type} (fld : Field R) (inflow wall : ConstDirichlet R)
    (iv : IntVect) (field : Array4 R) (dcomp numcomp : Int) (geom : GeometryData R)
    (time : R) (bcr : Int → BCRec) (bcomp orig_comp : Int) :
    (∀ i j k m : Int,
        ¬ ((i = iv 0 ∧ j = iv 1 ∧ k = iv 2) ∧ dcomp ≤ m ∧ m < dcomp + numcomp) →
        (DirichletOp.ofFieldOps fld inflow.operator wall.operator).operator iv field dcomp
            numcomp geom time bcr bcomp orig_comp i j k m = field i j k m) ∧
      (∀ n : Int, 0 ≤ n → n < numcomp →
        ((¬ ∃ ori, (bcr (bcomp + n)).onFace ori = BCType.ext_dir ∧
              isBndry geom.Domain iv ori = true) ∧
          (DirichletOp.ofFieldOps fld inflow.operator wall.operator).operator iv field dcomp
              numcomp geom time bcr bcomp orig_comp (iv 0) (iv 1) (iv 2) (dcomp + n) =
            field (iv 0) (iv 1) (iv 2) (dcomp + n)) ∨
        (∃ ori, ((bcr (bcomp + n)).onFace ori = BCType.ext_dir ∧
              isBndry geom.Domain iv ori = true) ∧
          (DirichletOp.ofFieldOps fld inflow.operator wall.operator).operator iv field dcomp
              numcomp geom time bcr bcomp orig_comp (iv 0) (iv 1) (iv 2) (dcomp + n) =
            (if fld.bc_type ori = BC.mass_inflow then inflow.m_bcv else wall.m_bcv)
              ori (orig_comp + n))) := by
  constructor
  · intro i j k m hout
    rw [operator_const_apply]
    cases hl : lastHit (dispatchCalls fld.bc_type iv dcomp numcomp geom bcr bcomp orig_comp)
        i j k m with
    | none => rfl
    | some c =>
      exfalso
      obtain ⟨hmem, hhit⟩ := lastHit_mem hl
      rw [mem_dispatchCalls] at hmem
      obtain ⟨⟨hc0, hc1⟩, -, -, hceq⟩ := hmem
      have hiv : c.iv = iv := by rw [hceq]
      have hdc : c.dcomp = dcomp := by rw [hceq]
      simp only [Invocation.hits, decide_eq_true_eq, hiv, hdc] at hhit
      exact hout ⟨⟨hhit.1, hhit.2.1, hhit.2.2.1⟩, by omega, by omega⟩
  · intro n h0 h1
    by_cases hex : ∃ ori, (bcr (bcomp + n)).onFace ori = BCType.ext_dir ∧
        isBndry geom.Domain iv ori = true
    · right
      obtain ⟨ori, hori⟩ := hex
      obtain ⟨ori_star, hstar⟩ := lastExtDirFace_isSome (bcr (bcomp + n)) geom.Domain iv
        ⟨ori, (qualifies_iff _ _ _ _).mpr hori⟩
      refine ⟨ori_star,
        (qualifies_iff _ _ _ _).mp (lastExtDirFace_spec _ _ _ _ hstar).1, ?_⟩
      rw [operator_const_apply,
        lastHit_dispatchCalls fld.bc_type iv dcomp numcomp geom bcr bcomp orig_comp n
          ori_star h0 h1 hstar]
      simp only [constValue_mk]
    · left
      refine ⟨hex, ?_⟩
      rw [operator_const_apply]
      cases hl : lastHit (dispatchCalls fld.bc_type iv dcomp numcomp geom bcr bcomp orig_comp)
          (iv 0) (iv 1) (iv 2) (dcomp + n) with
      | none => rfl
      | some c =>
        exfalso
        obtain ⟨hmem, hhit⟩ := lastHit_mem hl
        rw [mem_dispatchCalls] at hmem
        obtain ⟨-, hdir, hb, hceq⟩ := hmem
        have hdc : c.dcomp = dcomp := by rw [hceq]
        simp only [Invocation.hits, decide_eq_true_eq, hdc] at hhit
        have hcn : c.comp = n := by omega
        rw [hcn] at hdir
        exact hex ⟨c.ori, hdir, hb⟩

/-! ### The redundant component loop of the Laplacian -/

theorem Laplacian.kernel_eq_kernelOnce {R : Type} [Add R] [Mul R] (S : Stencil R)
    (idx : Fin 3 → R) (ncomp : Int) (phi : Array4 R) (hn : 1 ≤ ncomp) :
    Laplacian.kernel S idx ncomp phi = Laplacian.kernelOnce S idx phi := by
  funext i j k g i' j' k' m
  by_cases h : i' = i ∧ j' = j ∧ k' = k ∧ m = 0
  · obtain ⟨h1, h2, h3, h4⟩ := h
    subst h1 h2 h3 h4
    rw [Laplacian.lapKernel_written S idx ncomp phi i' j' k' g hn]
    simp [Laplacian.kernelOnce, Array4.set]
  · rw [Laplacian.lapKernel_other S idx ncomp phi i j k g i' j' k' m h]
    simp only [Laplacian.kernelOnce, Array4.set, if_neg h]

/-- C21 (redundant component loop in the Laplacian): for every input component count
`ncomp ≥ 1` the output of `Laplacian::apply` is the output of the operator that evaluates
the three-axis second-difference sum once per cell, so it is the same for every operator
over the same arrays whose input component count is at least one. -/
theorem C21_laplacian_loop_redundant {R : Type} [Add R] [Mul R] (self : Laplacian R)
    (S : Stencil R) (geom : Geometry R) (tilebox : Box)
    (hn : 1 ≤ self.m_phi.num_comp) :
    self.apply S geom tilebox = self.applyOnce S geom tilebox ∧
      ∀ other : Laplacian R, other.m_lapphi.arr = self.m_lapphi.arr →
        other.m_phi.arr = self.m_phi.arr → 1 ≤ other.m_phi.num_comp →
        other.apply S geom tilebox = self.apply S geom tilebox := by
  have key : ∀ L : Laplacian R, 1 ≤ L.m_phi.num_comp →
      L.apply S geom tilebox = L.applyOnce S geom tilebox := by
    intro L hL
    unfold Laplacian.apply Laplacian.applyOnce
    simp only [Laplacian.kernel_eq_kernelOnce S _ _ _ hL]
  refine ⟨key self hn, ?_⟩
  intro other hout hin hother
  rw [key self hn, key other hother]
  unfold Laplacian.applyOnce
  rw [hout, hin]

/-- The statement C21 for `exLaplacian` (three input components) on the box `exDomain`,
compared with the operator over the same arrays that declares one input component. -/
theorem C21_laplacian_loop_redundant_witness :
    exLaplacian.apply exStencil exGeometry exDomain =
        exLaplacian.applyOnce exStencil exGeometry exDomain ∧
      Laplacian.apply { m_lapphi := exLapOut, m_phi := { num_comp := 1, arr := exPhi.arr } }
          exStencil exGeometry exDomain =
        exLaplacian.apply exStencil exGeometry exDomain :=
  have h := C21_laplacian_loop_redundant exLaplacian exStencil exGeometry exDomain
    (by decide)
  ⟨h.1, h.2 { m_lapphi := exLapOut, m_phi := { num_comp := 1, arr := exPhi.arr } }
    rfl rfl (by decide)⟩

/-! ### The ABL forcing update -/

/-- C22 (ABL forcing update): when no velocity time table is configured and the time step
`dt` is not zero, after `set_mean_velocities(ux, uy)` the mean velocity is `(ux, uy)` in x
and y, `abl_forcing()[d]` is `(target_vel[d] - mean_vel[d]) / dt` for `d = 0, 1`, and the
target velocity, the z component of the forcing and the z component of the mean velocity
are unchanged; and the forcing is zero in x and y when the mean passed in is the target
just set by `set_target_velocities`. -/
theorem C22_abl_forcing_update {R : Type} [DivisionRing R] (F : ForcingFuns R)
    (self : ABLForcing R) (ux uy : R)
    (htable : self.m_vel_timetable.isEmpty = true) (_hdt : self.m_time.deltaT ≠ 0) :
    (self.set_mean_velocities F ux uy).m_mean_vel 0 = ux ∧
      (self.set_mean_velocities F ux uy).m_mean_vel 1 = uy ∧
      (self.set_mean_velocities F ux uy).abl_forcing 0 =
        (self.m_target_vel 0 - ux) / self.m_time.deltaT ∧
      (self.set_mean_velocities F ux uy).abl_forcing 1 =
        (self.m_target_vel 1 - uy) / self.m_time.deltaT ∧
      (∀ d : Fin 3, d ≠ 2 → (self.set_mean_velocities F ux uy).abl_forcing d =
        ((self.set_mean_velocities F ux uy).m_target_vel d -
          (self.set_mean_velocities F ux uy).m_mean_vel d) / self.m_time.deltaT) ∧
      (self.set_mean_velocities F ux uy).m_target_vel = self.m_target_vel ∧
      (self.set_mean_velocities F ux uy).abl_forcing 2 = self.m_abl_forcing 2 ∧
      (self.set_mean_velocities F ux uy).m_mean_vel 2 = self.m_mean_vel 2 ∧
      (((self.set_target_velocities ux uy).set_mean_velocities F ux uy).abl_forcing 0 = 0 ∧
        ((self.set_target_velocities ux uy).set_mean_velocities F ux uy).abl_forcing 1 = 0) := by
  have h01 : (1 : Fin 3) ≠ 0 := by decide
  have h02 : (0 : Fin 3) ≠ 1 := by decide
  have h21 : (2 : Fin 3) ≠ 1 := by decide
  have h20 : (2 : Fin 3) ≠ 0 := by decide
  have hmean0 : (self.set_mean_velocities F ux uy).m_mean_vel 0 = ux := by
    simp [ABLForcing.set_mean_velocities, Function.update, h02]
  have hmean1 : (self.set_mean_velocities F ux uy).m_mean_vel 1 = uy := by
    simp [ABLForcing.set_mean_velocities, Function.update]
  have htarget : (self.set_mean_velocities F ux uy).m_target_vel = self.m_target_vel := by
    simp [ABLForcing.set_mean_velocities, htable]
  have hf0 : (self.set_mean_velocities F ux uy).abl_forcing 0 =
      (self.m_target_vel 0 - ux) / self.m_time.deltaT := by
    simp [ABLForcing.set_mean_velocities, ABLForcing.abl_forcing, htable, Function.update,
      h02]
  have hf1 : (self.set_mean_velocities F ux uy).abl_forcing 1 =
      (self.m_target_vel 1 - uy) / self.m_time.deltaT := by
    simp [ABLForcing.set_mean_velocities, ABLForcing.abl_forcing, htable, Function.update]
  refine ⟨hmean0, hmean1, hf0, hf1, ?_, htarget, ?_, ?_, ?_, ?_⟩
  · intro d hd
    rw [htarget]
    have hcases : d = 0 ∨ d = 1 ∨ d = 2 := by
      fin_cases d <;> simp
    rcases hcases with h | h | h
    · rw [h, hmean0]
      exact hf0
    · rw [h, hmean1]
      exact hf1
    · exact absurd h hd
  · simp [ABLForcing.set_mean_velocities, ABLForcing.abl_forcing, Function.update, h21, h20]
  · simp [ABLForcing.set_mean_velocities, Function.update, h21, h20]
  · simp [ABLForcing.set_mean_velocities, ABLForcing.set_target_velocities,
      ABLForcing.abl_forcing, htable, Function.update, h02]
  · simp [ABLForcing.set_mean_velocities, ABLForcing.set_target_velocities,
      ABLForcing.abl_forcing, htable, Function.update]

/-- The statement C22 for `exForcing` (no time table, `dt = 1/2`, target `(8, 6, 0)`) and
the mean velocity `(5, 2)`: the forcing becomes `((8 - 5) / (1/2), (6 - 2) / (1/2), 5)`. -/
theorem C22_abl_forcing_update_witness :
    (exForcing.set_mean_velocities exForcingFuns 5 2).m_mean_vel 0 = 5 ∧
      (exForcing.set_mean_velocities exForcingFuns 5 2).m_mean_vel 1 = 2 ∧
      (exForcing.set_mean_velocities exForcingFuns 5 2).abl_forcing 0 =
        (exForcing.m_target_vel 0 - 5) / exForcing.m_time.deltaT ∧
      (exForcing.set_mean_velocities exForcingFuns 5 2).abl_forcing 1 =
        (exForcing.m_target_vel 1 - 2) / exForcing.m_time.deltaT :=
  have h := C22_abl_forcing_update exForcingFuns exForcing 5 2 (by decide)
    (by simp [exForcing])
  ⟨h.1, h.2.1, h.2.2.1, h.2.2.2.1⟩

end AmrWind
